import Mathlib

/-!
Shallow embedding of the iteration controller and tool-dispatch engine of
`src/main.py` (the DittoX FastAPI app builder).  The Python process state is
modelled explicitly:

* the global `progress` dict becomes `Progress`;
* the filesystem, the sqlite `codes` table and the directory set become the
  fields of `World`;
* the LiteLLM gateway is an external collaborator, so each loop pass consumes
  the outcome of its two `completion` calls from an oracle `Nat → PassOracle`
  (round 1 may raise, return a falsy message, or return content plus tool
  calls — exactly the three behaviours `run_main_loop` distinguishes);
* Python library primitives that are not part of the repository
  (`hashlib.sha256(...).hexdigest()`, `traceback.format_exc()`, the
  `ast`-based extraction inside `list_all_functions`, and `json.loads` of a
  tool-call payload) are oracles: `Libs` carries the first three, and a
  `ToolCall.arguments` field carries the outcome of `json.loads` for that
  payload (`.ok` = parsed key/value map, `.error` = exception text);
* every assignment to the global `progress` dict goes through
  `World.setProgress`, which also appends the written value to a ghost
  `trace` field so that "at every observation point" properties can be
  stated about the set of values an external poller can ever observe.

Machine-level caveats, recorded once here: filesystem writes other than
`os.makedirs` are modelled as total (their `except` branches in the source
return error strings and are unreachable in the model); `os.makedirs` may
raise, driven by the `World.bad_paths` environment field, because that is the
one capability-level exception reachable in `run_main_loop`'s dispatcher.
`sleep` calls are dropped (pure pacing).  `read_instructions` is an
environment input (`RunEnv.instructions`).
-/

set_option maxRecDepth 8000

namespace DittoX

/-- Decidable equality for `Except`, needed so that concrete witness states
can be compared with `decide`. -/
instance instDecEqExcept {α β : Type} [DecidableEq α] [DecidableEq β] :
    DecidableEq (Except α β) := fun a b =>
  match a, b with
  | .ok x, .ok y =>
    if h : x = y then .isTrue (by rw [h]) else .isFalse (by intro hc; cases hc; exact h rfl)
  | .error x, .error y =>
    if h : x = y then .isTrue (by rw [h]) else .isFalse (by intro hc; cases hc; exact h rfl)
  | .ok _, .error _ => .isFalse (by intro hc; cases hc)
  | .error _, .ok _ => .isFalse (by intro hc; cases hc)

/-- Progress record mirroring the global `progress` dict (src/main.py
lines 39-45). -/
structure Progress where
  status : String
  iteration : Nat
  max_iterations : Nat
  output : String
  completed : Bool
deriving Repr, DecidableEq

/-- A model-issued tool call.  `arguments` embeds the outcome of
`json.loads(tool_call.function.arguments)`: `.ok` is the parsed key/value
payload, `.error e` means the payload is non-parseable and `json.loads`
raises with text `e`. -/
structure ToolCall where
  id : String
  name : String
  arguments : Except String (List (String × String))
deriving Repr, DecidableEq

/-- One message of the conversation.  `content` is `none` when the Python
attribute is `None`; tool-role messages carry `tool_call_id` and `name`. -/
structure Msg where
  role : String
  content : Option String
  tool_calls : List ToolCall
  tool_call_id : Option String
  name : Option String
deriving Repr, DecidableEq

/-- One entry of `current_iteration['errors']`.  `traceback` is `none` when
the source does not put a `'traceback'` key in the entry (the
`llm_completion` and `second_llm_completion` entries). -/
structure ErrorEntry where
  action : String
  error : String
  traceback : Option String
deriving Repr, DecidableEq

/-- One entry of `current_iteration['tool_results']`. -/
structure ToolResult where
  tool : String
  result : String
deriving Repr, DecidableEq

/-- One element of `history_dict['iterations']` (src/main.py lines 419-425). -/
structure IterationRecord where
  iteration : Nat
  actions : List String
  llm_responses : List String
  tool_results : List ToolResult
  errors : List ErrorEntry
deriving Repr, DecidableEq

/-- The machine state the tool capabilities act on: directories created so
far, files (path ↦ content), the sqlite `codes` table (code_id ↦
code_content), the set of paths on which `os.makedirs` raises (environment
input), the value of `ROUTES_DIR`, the global `progress` dict, and a ghost
`trace` of every value ever written to `progress`. -/
structure World where
  dirs : List String
  fs : List (String × String)
  db : List (String × String)
  bad_paths : List String
  routes_dir : String
  progress : Progress
  trace : List Progress
deriving Repr, DecidableEq

/-- Assignment to the global `progress` dict, instrumented: the written value
is also appended to the ghost observation trace. -/
def World.setProgress (w : World) (p : Progress) : World :=
  { w with progress := p, trace := w.trace ++ [p] }

/-- Library oracles: Python-library functions used by the source that are
external to the repository. -/
structure Libs where
  /-- Outcome of `hashlib.sha256(s.encode()).hexdigest()`. -/
  sha256hex : String → String
  /-- Outcome of `traceback.format_exc()` for an exception whose text is the
  argument. -/
  format_exc : String → String
  /-- Outcome of the `ast`-based name/docstring extraction in
  `list_all_functions`: `.ok (name, description)` on success (including the
  `Unknown` defaults), `.error e` when `ast.parse` raises. -/
  extract : String → Except String (String × String)

/-- Association-list lookup (dict read / sql `SELECT ... WHERE key = ?`). -/
def getEntry (m : List (String × String)) (k : String) : Option String :=
  (m.find? (fun p => p.1 == k)).map (fun p => p.2)

/-- Association-list upsert (file overwrite / `INSERT OR REPLACE`). -/
def setEntry (m : List (String × String)) (k v : String) : List (String × String) :=
  if (m.find? (fun p => p.1 == k)).isSome then
    m.map (fun p => if p.1 == k then (k, v) else p)
  else m ++ [(k, v)]

/-- Translation of `create_file` (src/main.py lines 56-66): open with mode
`x`, fall back to mode `w` when the file exists.  Net effect is an upsert;
the two return strings distinguish the branches. -/
def create_file (path content : String) (w : World) : String × World :=
  if (getEntry w.fs path).isSome then
    ("Updated file: " ++ path, { w with fs := setEntry w.fs path content })
  else
    ("Created file: " ++ path, { w with fs := setEntry w.fs path content })

/-- Translation of `create_directory` (src/main.py lines 48-54).
`os.makedirs` may raise (modelled by membership in `bad_paths`); creating
`ROUTES_DIR` also creates its `__init__.py`. -/
def create_directory (path : String) (w : World) : Except String (String × World) :=
  if path ∈ w.dirs then .ok ("Directory already exists: " ++ path, w)
  else if path ∈ w.bad_paths then .error ("OSError: cannot create directory " ++ path)
  else
    let w1 : World := { w with dirs := w.dirs ++ [path] }
    if path == w.routes_dir then
      .ok ("Created directory: " ++ path, (create_file (w.routes_dir ++ "/__init__.py") "" w1).2)
    else .ok ("Created directory: " ++ path, w1)

/-- Translation of `update_file` (src/main.py lines 68-74). -/
def update_file (path content : String) (w : World) : String × World :=
  ("Updated file: " ++ path, { w with fs := setEntry w.fs path content })

/-- Translation of `fetch_code` (src/main.py lines 76-82); the missing-file
exception is caught by the source and rendered as an error string. -/
def fetch_code (file_path : String) (w : World) : String × World :=
  match getEntry w.fs file_path with
  | some code => (code, w)
  | none => ("Error fetching code from " ++ file_path ++ ": No such file or directory", w)

/-- Translation of `task_completed` (src/main.py lines 112-115): two writes
to the global `progress` dict, then a fixed return string. -/
def task_completed (w : World) : String × World :=
  let w1 := w.setProgress { w.progress with status := "completed" }
  let w2 := w1.setProgress { w1.progress with completed := true }
  ("Task marked as completed.", w2)

/-- Translation of `store_code` (src/main.py lines 175-184): the artifact id
is the SHA-256 hex digest of the content, and the row is upserted
(`INSERT OR REPLACE`). -/
def store_code (L : Libs) (code_content : String) (w : World) : String × World :=
  let code_id := L.sha256hex code_content
  ("Code stored with ID: " ++ code_id, { w with db := setEntry w.db code_id code_content })

/-- Translation of `retrieve_code` (src/main.py lines 186-195). -/
def retrieve_code (code_id : String) (w : World) : String × World :=
  match getEntry w.db code_id with
  | some c => (c, w)
  | none => ("Code with ID " ++ code_id ++ " not found.", w)

/-- Rendering of one entry of the list returned by `list_all_functions`
(the dispatcher interpolates the Python list into an f-string). -/
def renderFunctionEntry (e : String × String × String) : String :=
  "\x7b\x27code_id\x27: \x27" ++ e.1 ++ "\x27, \x27function_name\x27: \x27" ++ e.2.1 ++
    "\x27, \x27function_description\x27: \x27" ++ e.2.2 ++ "\x27\x7d"

/-- Translation of `list_all_functions` (src/main.py lines 197-235): walk the
`codes` table, extract name/docstring per row via the `ast` oracle,
substituting placeholders when extraction raises. -/
def list_all_functions (L : Libs) (w : World) : String × World :=
  let entries := w.db.map (fun p =>
    match L.extract p.2 with
    | .ok nd => (p.1, nd.1, nd.2)
    | .error e => (p.1, "Unknown", "Parsing error: " ++ e))
  ("[" ++ String.intercalate ", " (entries.map renderFunctionEntry) ++ "]", w)

/-- The static tool registry: the keys of `available_functions`
(src/main.py lines 238-247). -/
def available_functions : List String :=
  ["create_directory", "create_file", "update_file", "fetch_code",
   "task_completed", "store_code", "retrieve_code", "list_all_functions"]

/-- Declared parameter names of each capability, as in the Python `def`
signatures (these coincide with the advertised tool schemas). -/
def paramNames (name : String) : List String :=
  if name == "create_directory" then ["path"]
  else if name == "create_file" then ["path", "content"]
  else if name == "update_file" then ["path", "content"]
  else if name == "fetch_code" then ["file_path"]
  else if name == "task_completed" then []
  else if name == "store_code" then ["code_content"]
  else if name == "retrieve_code" then ["code_id"]
  else []

/-- Keyword-argument binding of `function_to_call(**function_args)`: every
declared parameter must be supplied and no unexpected keyword may appear,
otherwise Python raises `TypeError` at the call. -/
def bindsOK (args : List (String × String)) (params : List String) : Bool :=
  params.all (fun k => (getEntry args k).isSome) &&
  args.all (fun p => p.1 ∈ params)

/-- Execution of a registered capability on parsed arguments: keyword
binding, then the capability body.  `.error` is an exception raised at or
inside the call (caught by the dispatcher's inner `try`). -/
def callFunction (L : Libs) (name : String) (args : List (String × String)) (w : World) :
    Except String (String × World) :=
  if ¬ bindsOK args (paramNames name) then
    .error ("TypeError: " ++ name ++ "() received unexpected or missing keyword arguments")
  else if name == "create_directory" then
    create_directory ((getEntry args "path").getD "") w
  else if name == "create_file" then
    .ok (create_file ((getEntry args "path").getD "") ((getEntry args "content").getD "") w)
  else if name == "update_file" then
    .ok (update_file ((getEntry args "path").getD "") ((getEntry args "content").getD "") w)
  else if name == "fetch_code" then
    .ok (fetch_code ((getEntry args "file_path").getD "") w)
  else if name == "task_completed" then
    .ok (task_completed w)
  else if name == "store_code" then
    .ok (store_code L ((getEntry args "code_content").getD "") w)
  else if name == "retrieve_code" then
    .ok (retrieve_code ((getEntry args "code_id").getD "") w)
  else if name == "list_all_functions" then
    .ok (list_all_functions L w)
  else
    .error ("Tool not in registry: " ++ name)

/-- Outcome of the round-1 `completion` call: the call raises, the response
carries a falsy message (`if not response.choices[0].message`, with the
accompanying `response.get('error', ...)` text), or a usable message with
content and tool calls (`None` content is `none`; no tool calls is `[]`). -/
inductive Round1 where
  | raise (e : String)
  | empty (err : String)
  | message (content : Option String) (tool_calls : List ToolCall)
deriving Repr, DecidableEq

/-- Outcome of the round-2 follow-up `completion` call, with the same three
shapes (`empty` covers `not (second_response.choices and ...message)`). -/
inductive Round2 where
  | raise (e : String)
  | empty (err : String)
  | message (content : Option String) (tool_calls : List ToolCall)
deriving Repr, DecidableEq

/-- Gateway behaviour for one loop pass. -/
structure PassOracle where
  first : Round1
  second : Round2
deriving Repr, DecidableEq

/-- Environment of one Run: the capability precheck answer, the contents of
`instructions.md`, the user request, the gateway oracle (indexed by the
`iteration` counter at the start of the pass), and the per-attempt outcome
of the history-file write (`true` = the write raises). -/
structure RunEnv where
  supportsFC : Bool
  instructions : String
  user_input : String
  oracle : Nat → PassOracle
  logFails : Nat → Bool

/-- Full state threaded through `run_main_loop`: machine `world`, the
`messages` list, completed `history` records, the current pass record
(`current_iteration` — in Python it is aliased into `history_dict` from pass
start; the model appends it at pass end and always logs `history ++ [cur]`),
the local `iteration` counter, the local `output` accumulator, and the
persisted log file (`logFile`, with `logCount` counting write attempts). -/
structure RunState where
  world : World
  messages : List Msg
  history : List IterationRecord
  cur : IterationRecord
  iter : Nat
  output : String
  logFile : Option (List IterationRecord)
  logCount : Nat
deriving Repr, DecidableEq

/-- Raw, fallible write of the serialized history (`json.dump` inside
`log_to_file`); failure of the underlying file operation is an exception. -/
def writeLog (fails : Bool) (hist : List IterationRecord) :
    Except String (List IterationRecord) :=
  if fails then .error "OSError: write failed" else .ok hist

/-- Translation of `log_to_file` (src/main.py lines 126-131): attempt the
write; any exception is swallowed and the previous file content survives. -/
def log_to_file (fails : Bool) (hist : List IterationRecord)
    (file : Option (List IterationRecord)) : Option (List IterationRecord) :=
  match writeLog fails hist with
  | .ok h => some h
  | .error _ => file

/-- One `log_to_file(history_dict)` call site inside the loop. -/
def doLog (env : RunEnv) (s : RunState) : RunState :=
  { s with
    logFile := log_to_file (env.logFails s.logCount) (s.history ++ [s.cur]) s.logFile,
    logCount := s.logCount + 1 }

/-- Python `x or ""` on an optional string. -/
def orEmpty (c : Option String) : String := c.getD ""

/-- Error entry of the pass-boundary handler (src/main.py lines 517-523). -/
def mainLoopError (L : Libs) (e : String) : ErrorEntry :=
  ⟨"main_loop", e, some (L.format_exc e)⟩

/-- Error entry for an unregistered tool name (src/main.py lines 460-467). -/
def unavailErr (name : String) : ErrorEntry :=
  ⟨"tool_call_" ++ name, "Tool \x27" ++ name ++ "\x27 is not available.",
   some "No traceback available."⟩

/-- Error entry of the dispatcher's inner `try` (src/main.py lines 489-495):
argument-parse failure or an exception at/inside the capability call. -/
def execErr (L : Libs) (name e : String) : ErrorEntry :=
  ⟨"tool_call_" ++ name, "Error executing " ++ name ++ ": " ++ e,
   some (L.format_exc e)⟩

/-- Append an error entry to the current iteration record. -/
def addErr (c : IterationRecord) (e : ErrorEntry) : IterationRecord :=
  { c with errors := c.errors ++ [e] }

/-- The tool-role message appended to the conversation for a successful
call (src/main.py lines 477-479). -/
def toolMsg (tc : ToolCall) (res : String) : Msg :=
  ⟨"tool", some res, [], some tc.id, some tc.name⟩

/-- An assistant message as appended to `messages`. -/
def asstMsg (content : Option String) (tool_calls : List ToolCall) : Msg :=
  ⟨"assistant", content, tool_calls, none, none⟩

/-- Result of processing the rest of a pass: either the loop continues with
the next pass, or `run_main_loop` returns (the `task_completed` early
return) with the returned string. -/
inductive DispatchResult where
  | proceed (s : RunState)
  | finished (s : RunState) (ret : String)
deriving Repr, DecidableEq

/-- State after a successful capability execution (src/main.py
lines 472-479): record the tool result, extend the output trace, and append
the correlated tool-role message to the conversation. -/
def succState (tc : ToolCall) (res : String) (w : World) (s : RunState) : RunState :=
  { s with
    world := w,
    cur := { s.cur with tool_results := s.cur.tool_results ++ [⟨tc.name, res⟩] },
    output := s.output ++ "<strong>Tool Result (" ++ tc.name ++ "):</strong>\n<p>" ++
      res ++ "</p>\n",
    messages := s.messages ++ [toolMsg tc res] }

/-- The `task_completed` early return (src/main.py lines 481-487): terminal
progress writes, the COMPLETE banner, a final history log, and the return of
`output` from `run_main_loop`. -/
def finishOut (s1 : RunState) : String := s1.output ++ "\n<h2>COMPLETE</h2>\n"

/-- State produced by the `task_completed` early return: terminal progress
writes, the COMPLETE banner, and the final history log. -/
def finishState (env : RunEnv) (s1 : RunState) : RunState :=
  let w1 := s1.world.setProgress { s1.world.progress with status := "completed" }
  let w2 := w1.setProgress { w1.progress with completed := true }
  let w3 := w2.setProgress { w2.progress with output := finishOut s1 }
  let s2 := doLog env { s1 with world := w3, output := finishOut s1 }
  { s2 with history := s2.history ++ [s2.cur] }

def finishRun (env : RunEnv) (s1 : RunState) : DispatchResult :=
  .finished (finishState env s1) (finishOut s1)

/-- Body of the dispatcher's `for tool_call in tool_calls` loop for one
ToolCall (src/main.py lines 456-495): registry lookup, argument parse,
capability execution and the completion check.  `.proceed` continues with
the next ToolCall, `.finished` is the early return. -/
def dispatchStep (L : Libs) (env : RunEnv) (tc : ToolCall) (s : RunState) : DispatchResult :=
  if tc.name ∉ available_functions then
    .proceed { s with cur := addErr s.cur (unavailErr tc.name) }
  else
    match tc.arguments with
    | .error e => .proceed { s with cur := addErr s.cur (execErr L tc.name e) }
    | .ok args =>
      match callFunction L tc.name args s.world with
      | .error e => .proceed { s with cur := addErr s.cur (execErr L tc.name e) }
      | .ok rw =>
        if tc.name == "task_completed" then finishRun env (succState tc rw.1 rw.2 s)
        else .proceed (succState tc rw.1 rw.2 s)

/-- The dispatcher loop over a batch of ToolCalls. -/
def dispatchCalls (L : Libs) (env : RunEnv) : List ToolCall → RunState → DispatchResult
  | [], s => .proceed s
  | tc :: rest, s =>
    match dispatchStep L env tc s with
    | .proceed s1 => dispatchCalls L env rest s1
    | .finished s2 ret => .finished s2 ret

/-- Start of a loop pass (src/main.py lines 418-426): write
`progress['iteration'] = iteration + 1` and open a fresh
`current_iteration` record. -/
def beginPass (s : RunState) : RunState :=
  { s with
    world := s.world.setProgress { s.world.progress with iteration := s.iter + 1 },
    cur := ⟨s.iter + 1, [], [], [], []⟩ }

/-- Capture of a usable round-1 message common to both branches
(src/main.py lines 444-448): record the content and emit the iteration
header. -/
def msgCommon (content : Option String) (s : RunState) : RunState :=
  { s with
    cur := { s.cur with llm_responses := s.cur.llm_responses ++ [orEmpty content] },
    output := s.output ++ "\n<h2>Iteration " ++ toString (s.iter + 1) ++ ":</h2>\n" }

/-- Preamble of the tool-call branch (src/main.py lines 453-454): the
tool-call banner and the assistant message (with its tool calls) appended to
the conversation. -/
def toolPhase (content : Option String) (tool_calls : List ToolCall) (s : RunState) : RunState :=
  { s with
    output := s.output ++ "<strong>Tool Call:</strong>\n<p>" ++ orEmpty content ++ "</p>\n",
    messages := s.messages ++ [asstMsg content tool_calls] }

/-- State facing the dispatcher after a usable round-1 message with tool
calls. -/
def preDispatch (content : Option String) (tool_calls : List ToolCall) (s : RunState) : RunState :=
  toolPhase content tool_calls (msgCommon content (beginPass s))

/-- End of a loop pass (src/main.py lines 525-527): advance the local
`iteration` counter, attempt persistence, seal the current record into the
history.  The anomaly path (lines 439-442) performs the same two effects in
the other order; `log_to_file` does not read `iteration`, so the resulting
state is identical and the model reuses this helper there. -/
def endPass (env : RunEnv) (s : RunState) : RunState :=
  let s1 := { s with iter := s.iter + 1 }
  let s2 := doLog env s1
  { s2 with history := s2.history ++ [s2.cur] }

/-- One pass of the `while iteration < max_iterations` loop (src/main.py
lines 417-527), assuming the guard held at entry. -/
def runPass (L : Libs) (env : RunEnv) (s0 : RunState) : DispatchResult :=
  let s := beginPass s0
  match (env.oracle s.iter).first with
  | .raise e =>
    .proceed (endPass env { s with cur := addErr s.cur (mainLoopError L e) })
  | .empty err =>
    .proceed (endPass env { s with cur := addErr s.cur ⟨"llm_completion", err, none⟩ })
  | .message content tool_calls =>
    let s := msgCommon content s
    if tool_calls.isEmpty then
      let s := { s with
        output := s.output ++ "<strong>LLM Response:</strong>\n<p>" ++ orEmpty content ++ "</p>\n",
        messages := s.messages ++ [asstMsg content tool_calls] }
      let s := { s with world := s.world.setProgress { s.world.progress with output := s.output } }
      .proceed (endPass env s)
    else
      match dispatchCalls L env tool_calls (toolPhase content tool_calls s) with
      | .finished s2 ret => .finished s2 ret
      | .proceed s2 =>
        match (env.oracle s0.iter).second with
        | .raise e =>
          .proceed (endPass env { s2 with cur := addErr s2.cur (mainLoopError L e) })
        | .empty err =>
          let s3 := { s2 with cur := addErr s2.cur ⟨"second_llm_completion", err, none⟩ }
          let s3 := { s3 with world := s3.world.setProgress { s3.world.progress with output := s3.output } }
          .proceed (endPass env s3)
        | .message c2 tcs2 =>
          let s3 := { s2 with
            cur := { s2.cur with llm_responses := s2.cur.llm_responses ++ [orEmpty c2] },
            output := s2.output ++ "<strong>LLM Response:</strong>\n<p>" ++ orEmpty c2 ++ "</p>\n",
            messages := s2.messages ++ [asstMsg c2 tcs2] }
          let s3 := { s3 with world := s3.world.setProgress { s3.world.progress with output := s3.output } }
          .proceed (endPass env s3)

/-- The `while` loop driven by remaining fuel `max_iterations - iteration`,
followed by the terminal writes of src/main.py lines 529-533. -/
def loopGo (L : Libs) (env : RunEnv) : Nat → RunState → RunState × String
  | 0, s =>
    let w1 := s.world.setProgress { s.world.progress with status := "completed" }
    let w2 := w1.setProgress { w1.progress with completed := true }
    let w3 := w2.setProgress { w2.progress with status := "completed" }
    ({ s with world := w3 }, s.output)
  | fuel + 1, s =>
    match runPass L env s with
    | .finished s2 ret => (s2, ret)
    | .proceed s2 => loopGo L env fuel s2

/-- Serialized empty history seeded into the conversation
(`json.dumps({"iterations": []}, indent=2)`, src/main.py line 412). -/
def historyDumpEmpty : String := "History:\n\x7b\n  \x22iterations\x22: []\n\x7d"

/-- Translation of `run_main_loop` (src/main.py lines 392-535): capability
precheck (lines 395-399), conversation seeding (lines 406-413), then the
iteration loop.  Returns the final state and the returned string. -/
def run_main_loop (L : Libs) (env : RunEnv) (w0 : World)
    (logFile0 : Option (List IterationRecord)) : RunState × String :=
  if ¬ env.supportsFC then
    let w1 := w0.setProgress { w0.progress with status := "error" }
    let w2 := w1.setProgress { w1.progress with output := "Model does not support function calling." }
    let w3 := w2.setProgress { w2.progress with completed := true }
    ({ world := w3, messages := [], history := [], cur := ⟨0, [], [], [], []⟩,
       iter := 0, output := "", logFile := logFile0, logCount := 0 },
     "Model does not support function calling.")
  else
    loopGo L env w0.progress.max_iterations
      { world := w0,
        messages :=
          [⟨"system", some env.instructions, [], none, none⟩,
           ⟨"user", some env.user_input, [], none, none⟩,
           ⟨"system", some historyDumpEmpty, [], none, none⟩],
        history := [], cur := ⟨0, [], [], [], []⟩,
        iter := 0, output := "", logFile := logFile0, logCount := 0 }

/-- Translation of the POST branch of `home` that triggers a Run
(src/main.py lines 141-148): reset the global progress record field by
field, then start `run_main_loop` on the worker. -/
def start_run (L : Libs) (env : RunEnv) (w0 : World)
    (logFile0 : Option (List IterationRecord)) : RunState × String :=
  let w1 := w0.setProgress { w0.progress with status := "running" }
  let w2 := w1.setProgress { w1.progress with iteration := 0 }
  let w3 := w2.setProgress { w2.progress with output := "" }
  let w4 := w3.setProgress { w3.progress with completed := false }
  run_main_loop L env w4 logFile0

/-! ## Invariant machinery -/

/-- Invariant tying a world to the configured iteration ceiling `M`: the
current progress record has `max_iterations = M` and `iteration ≤ M`, and
every value ever observable in the ghost trace satisfies
`iteration ≤ max_iterations`. -/
def TraceInv (M : Nat) (w : World) : Prop :=
  w.progress.max_iterations = M ∧ w.progress.iteration ≤ M ∧
  ∀ p ∈ w.trace, p.iteration ≤ p.max_iterations

/-- Forget the persisted-log-file component of a state (used to state that a
Run is independent of persistence outcomes). -/
def stripLog (s : RunState) : RunState := { s with logFile := none }

/-- Forget the persisted-log-file component of a pass result. -/
def stripRes : DispatchResult → DispatchResult
  | .proceed s => .proceed (stripLog s)
  | .finished s r => .finished (stripLog s) r

/-- The state carried by a pass result, whichever constructor holds it. -/
def resState : DispatchResult → RunState
  | .proceed s => s
  | .finished s _ => s

/-! ## Concrete instances used to evaluate the development on closed inputs -/

/-- Concrete library oracle: an injective stand-in hash, a fixed traceback
renderer, and a fixed extractor. -/
def wLibs : Libs :=
  ⟨fun s => "sha-" ++ s, fun e => "Traceback: " ++ e, fun _ => .ok ("f", "doc")⟩

def wProgress : Progress := ⟨"running", 0, 3, "", false⟩

def wWorld : World := ⟨[], [], [], ["badpath"], "routes", wProgress, []⟩

def wState : RunState := ⟨wWorld, [], [], ⟨0, [], [], [], []⟩, 0, "", none, 0⟩

def wDone : ToolCall := ⟨"call1", "task_completed", .ok []⟩

def wMake : ToolCall := ⟨"call2", "create_file", .ok [("path", "a.py"), ("content", "x = 1")]⟩

def wBad : ToolCall := ⟨"call3", "missing_tool", .ok []⟩

def wBadArgs : ToolCall := ⟨"call4", "create_file", .error "Expecting value: line 1 column 1"⟩

def wRaise : ToolCall := ⟨"call5", "create_directory", .ok [("path", "badpath")]⟩

def wEnv : RunEnv :=
  ⟨true, "instr", "request",
   fun _ => ⟨.message (some "hi") [wMake, wDone, wBad], .raise "boom"⟩, fun _ => false⟩

/-- Same as `wEnv` except for the round-2 behaviour. -/
def wEnv2 : RunEnv :=
  ⟨true, "instr", "request",
   fun _ => ⟨.message (some "hi") [wMake, wDone, wBad], .empty "no response"⟩, fun _ => false⟩

def wEnvEmpty : RunEnv :=
  ⟨true, "instr", "request", fun _ => ⟨.empty "Unknown error", .raise "x"⟩, fun _ => false⟩

def wEnvNoFC : RunEnv :=
  ⟨false, "instr", "request", fun _ => ⟨.empty "Unknown error", .raise "x"⟩, fun _ => false⟩

/-- The dispatcher state reached after the prefix `[wMake]` of the witness
batch has been dispatched. -/
def wS1 : RunState :=
  resState (dispatchCalls wLibs wEnv [wMake]
    (preDispatch (some "hi") [wMake, wDone, wBad] wState))

theorem TraceInv.write {M : Nat} {w : World} {p : Progress} (h : TraceInv M w)
    (hi : p.iteration ≤ M) (hm : p.max_iterations = M) :
    TraceInv M (w.setProgress p) := by
  refine ⟨hm, hi, ?_⟩
  intro q hq
  simp only [World.setProgress, List.mem_append, List.mem_singleton] at hq
  rcases hq with hq | rfl
  · exact h.2.2 q hq
  · omega

/-- Writes that copy `iteration` and `max_iterations` from the current
progress preserve the invariant. -/
theorem TraceInv.write_same {M : Nat} {w : World} {p : Progress} (h : TraceInv M w)
    (hi : p.iteration = w.progress.iteration) (hm : p.max_iterations = w.progress.max_iterations) :
    TraceInv M (w.setProgress p) :=
  h.write (by rw [hi]; exact h.2.1) (by rw [hm]; exact h.1)

theorem create_file_world (p c : String) (w : World) :
    (create_file p c w).2 = { w with fs := setEntry w.fs p c } := by
  unfold create_file; split <;> rfl

theorem fetch_code_world (p : String) (w : World) : (fetch_code p w).2 = w := by
  unfold fetch_code; split <;> rfl

theorem retrieve_code_world (i : String) (w : World) : (retrieve_code i w).2 = w := by
  unfold retrieve_code; split <;> rfl

theorem create_directory_world {p : String} {w : World} {rw : String × World}
    (h : create_directory p w = .ok rw) :
    rw.2.progress = w.progress ∧ rw.2.trace = w.trace := by
  unfold create_directory at h
  split_ifs at h with d1 d2 d3
  · cases h; exact ⟨rfl, rfl⟩
  · cases h; refine ⟨?_, ?_⟩ <;> simp [create_file_world]
  · cases h; exact ⟨rfl, rfl⟩

/-- Frame facts for a successful capability execution: either the capability
leaves `progress` and the trace alone, or it is the `task_completed` pair of
writes. -/
theorem callFunction_shape {L : Libs} {n : String} {args : List (String × String)}
    {w : World} {rw : String × World}
    (h : callFunction L n args w = .ok rw) :
    (rw.2.progress = w.progress ∧ rw.2.trace = w.trace) ∨
    rw.2 = (w.setProgress { w.progress with status := "completed" }).setProgress
      { { w.progress with status := "completed" } with completed := true } := by
  unfold callFunction at h
  split_ifs at h with h1 h2 h3 h4 h5 h6 h7 h8 h9
  · exact .inl (create_directory_world h)
  · cases h; exact .inl ⟨by simp [create_file_world], by simp [create_file_world]⟩
  · cases h; exact .inl ⟨rfl, rfl⟩
  · cases h; exact .inl ⟨by simp [fetch_code_world], by simp [fetch_code_world]⟩
  · cases h; exact .inr rfl
  · cases h; exact .inl ⟨rfl, rfl⟩
  · cases h; exact .inl ⟨by simp [retrieve_code_world], by simp [retrieve_code_world]⟩
  · cases h; exact .inl ⟨rfl, rfl⟩

/-- The capability never touches `iteration` or `max_iterations`, and it
preserves the trace invariant. -/
theorem callFunction_frame {L : Libs} {n : String} {args : List (String × String)}
    {w : World} {rw : String × World}
    (h : callFunction L n args w = .ok rw) :
    rw.2.progress.iteration = w.progress.iteration ∧
    rw.2.progress.max_iterations = w.progress.max_iterations ∧
    (∀ M, TraceInv M w → TraceInv M rw.2) := by
  rcases callFunction_shape h with ⟨hp, ht⟩ | hw
  · exact ⟨by rw [hp], by rw [hp], fun M hM => ⟨by rw [hp]; exact hM.1,
      by rw [hp]; exact hM.2.1, by rw [ht]; exact hM.2.2⟩⟩
  · refine ⟨by rw [hw]; rfl, by rw [hw]; rfl, fun M hM => ?_⟩
    rw [hw]
    apply TraceInv.write_same
    · exact TraceInv.write_same hM rfl rfl
    · rfl
    · rfl

/-- Facts about a non-terminating dispatcher step: the loop bookkeeping
(`iter`, `history`, log state) is untouched, the record keeps its index, and
the world invariant is preserved. -/
theorem dispatchStep_proceed {L : Libs} {env : RunEnv} {tc : ToolCall} {s s1 : RunState}
    (h : dispatchStep L env tc s = .proceed s1) :
    s1.iter = s.iter ∧ s1.history = s.history ∧ s1.logCount = s.logCount ∧
    s1.cur.iteration = s.cur.iteration ∧
    s1.world.progress.iteration = s.world.progress.iteration ∧
    s1.world.progress.max_iterations = s.world.progress.max_iterations ∧
    (∀ M, TraceInv M s.world → TraceInv M s1.world) := by
  unfold dispatchStep at h
  split at h
  · cases h; exact ⟨rfl, rfl, rfl, rfl, rfl, rfl, fun M hM => hM⟩
  · split at h
    · cases h; exact ⟨rfl, rfl, rfl, rfl, rfl, rfl, fun M hM => hM⟩
    · split at h
      · cases h; exact ⟨rfl, rfl, rfl, rfl, rfl, rfl, fun M hM => hM⟩
      · rename_i rw2 hc
        split at h
        · simp [finishRun] at h
        · cases h
          rcases callFunction_frame hc with ⟨f1, f2, f3⟩
          exact ⟨rfl, rfl, rfl, rfl, f1, f2, f3⟩

/-- Facts about a terminating dispatcher step (the `task_completed` early
return): the current record is sealed into the history, exactly one log
write is attempted, and the terminal progress state is set. -/
theorem dispatchStep_finished {L : Libs} {env : RunEnv} {tc : ToolCall} {s s1 : RunState}
    {ret : String} (h : dispatchStep L env tc s = .finished s1 ret) :
    s1.iter = s.iter ∧
    (∃ c, s1.history = s.history ++ [c] ∧ c.iteration = s.cur.iteration) ∧
    s1.logCount = s.logCount + 1 ∧
    s1.world.progress.status = "completed" ∧ s1.world.progress.completed = true ∧
    s1.world.progress.iteration = s.world.progress.iteration ∧
    s1.world.progress.max_iterations = s.world.progress.max_iterations ∧
    (∀ M, TraceInv M s.world → TraceInv M s1.world) := by
  unfold dispatchStep at h
  split at h
  · cases h
  · split at h
    · cases h
    · split at h
      · cases h
      · rename_i rw2 hc
        split at h
        · unfold finishRun at h
          cases h
          rcases callFunction_frame hc with ⟨f1, f2, f3⟩
          refine ⟨rfl, ⟨_, rfl, rfl⟩, rfl, rfl, rfl, f1, f2, fun M hM => ?_⟩
          apply TraceInv.write_same
          · apply TraceInv.write_same
            · exact TraceInv.write_same (f3 M hM) rfl rfl
            · rfl
            · rfl
          · rfl
          · rfl
        · cases h

/-- Dispatcher-batch analogue of `dispatchStep_proceed`. -/
theorem dispatchCalls_proceed {L : Libs} {env : RunEnv} :
    ∀ {calls : List ToolCall} {s s1 : RunState},
    dispatchCalls L env calls s = .proceed s1 →
    s1.iter = s.iter ∧ s1.history = s.history ∧ s1.logCount = s.logCount ∧
    s1.cur.iteration = s.cur.iteration ∧
    s1.world.progress.iteration = s.world.progress.iteration ∧
    s1.world.progress.max_iterations = s.world.progress.max_iterations ∧
    (∀ M, TraceInv M s.world → TraceInv M s1.world)
  | [], s, s1, h => by
    cases h; exact ⟨rfl, rfl, rfl, rfl, rfl, rfl, fun M hM => hM⟩
  | tc :: rest, s, s1, h => by
    unfold dispatchCalls at h
    cases hd : dispatchStep L env tc s with
    | proceed s2 =>
      simp only [hd] at h
      rcases dispatchStep_proceed hd with ⟨p1, p2, p3, p4, p5, p6, p7⟩
      rcases dispatchCalls_proceed h with ⟨q1, q2, q3, q4, q5, q6, q7⟩
      exact ⟨q1.trans p1, q2.trans p2, q3.trans p3, q4.trans p4,
        q5.trans p5, q6.trans p6, fun M hM => q7 M (p7 M hM)⟩
    | finished s2 r2 => simp only [hd] at h; cases h

/-- Dispatcher-batch analogue of `dispatchStep_finished`. -/
theorem dispatchCalls_finished {L : Libs} {env : RunEnv} :
    ∀ {calls : List ToolCall} {s s1 : RunState} {ret : String},
    dispatchCalls L env calls s = .finished s1 ret →
    s1.iter = s.iter ∧
    (∃ c, s1.history = s.history ++ [c] ∧ c.iteration = s.cur.iteration) ∧
    s1.logCount = s.logCount + 1 ∧
    s1.world.progress.status = "completed" ∧ s1.world.progress.completed = true ∧
    s1.world.progress.iteration = s.world.progress.iteration ∧
    s1.world.progress.max_iterations = s.world.progress.max_iterations ∧
    (∀ M, TraceInv M s.world → TraceInv M s1.world)
  | [], _, _, _, h => by cases h
  | tc :: rest, s, s1, ret, h => by
    unfold dispatchCalls at h
    cases hd : dispatchStep L env tc s with
    | proceed s2 =>
      simp only [hd] at h
      rcases dispatchStep_proceed hd with ⟨p1, p2, p3, p4, p5, p6, p7⟩
      rcases dispatchCalls_finished h with ⟨q1, ⟨c, qc, qi⟩, q3, q4, q5, q6, q7, q8⟩
      exact ⟨q1.trans p1, ⟨c, by rw [qc, p2], qi.trans p4⟩, by rw [q3, p3],
        q4, q5, q6.trans p5, q7.trans p6, fun M hM => q8 M (p7 M hM)⟩
    | finished s2 r2 =>
      simp only [hd, DispatchResult.finished.injEq] at h
      obtain ⟨rfl, rfl⟩ := h
      rcases dispatchStep_finished hd with ⟨p1, p2, p3, p4, p5, p6, p7, p8⟩
      exact ⟨p1, p2, p3, p4, p5, p6, p7, p8⟩

/-- Facts about a pass that continues the loop: the iteration counter
advances by exactly one, the pass's record (indexed `iter + 1`) is sealed
into the history, exactly one persistence attempt is made, the iteration
ceiling is untouched, and the observation-trace invariant is preserved
provided the pass started under the loop guard. -/
theorem runPass_proceed_facts {L : Libs} {env : RunEnv} {s s1 : RunState}
    (h : runPass L env s = .proceed s1) :
    s1.iter = s.iter + 1 ∧
    (∃ c, s1.history = s.history ++ [c] ∧ c.iteration = s.iter + 1) ∧
    s1.logCount = s.logCount + 1 ∧
    s1.world.progress.max_iterations = s.world.progress.max_iterations ∧
    (∀ M, TraceInv M s.world → s.iter + 1 ≤ M → TraceInv M s1.world) := by
  have hbegin : ∀ M, TraceInv M s.world → s.iter + 1 ≤ M → TraceInv M (beginPass s).world := by
    intro M hM hle
    exact TraceInv.write hM hle hM.1
  unfold runPass at h
  cases hor : (env.oracle (beginPass s).iter).first with
  | raise e =>
    simp only [hor] at h
    cases h
    exact ⟨rfl, ⟨_, rfl, rfl⟩, rfl, rfl, hbegin⟩
  | empty err =>
    simp only [hor] at h
    cases h
    exact ⟨rfl, ⟨_, rfl, rfl⟩, rfl, rfl, hbegin⟩
  | message content tool_calls =>
    simp only [hor] at h
    by_cases htc : tool_calls.isEmpty = true
    · rw [if_pos htc] at h
      cases h
      refine ⟨rfl, ⟨_, rfl, rfl⟩, rfl, rfl, fun M hM hle => ?_⟩
      exact TraceInv.write_same (hbegin M hM hle) rfl rfl
    · rw [if_neg htc] at h
      cases hd : dispatchCalls L env tool_calls
          (toolPhase content tool_calls (msgCommon content (beginPass s))) with
      | proceed s2 =>
        simp only [hd] at h
        rcases dispatchCalls_proceed hd with ⟨q1, q2, q3, q4, q5, q6, q7⟩
        cases hr2 : (env.oracle s.iter).second with
        | raise e =>
          simp only [hr2] at h
          cases h
          refine ⟨?_, ⟨addErr s2.cur (mainLoopError L e), ?_, ?_⟩, ?_, ?_,
              fun M hM hle => q7 M (hbegin M hM hle)⟩ <;>
            simp [endPass, doLog, addErr, toolPhase, msgCommon, beginPass, World.setProgress, q1, q2, q3, q4, q6]
        | empty err =>
          simp only [hr2] at h
          cases h
          refine ⟨?_, ⟨addErr s2.cur ⟨"second_llm_completion", err, none⟩, ?_, ?_⟩, ?_, ?_,
              fun M hM hle => TraceInv.write_same (q7 M (hbegin M hM hle)) rfl rfl⟩ <;>
            simp [endPass, doLog, addErr, toolPhase, msgCommon, beginPass, World.setProgress, q1, q2, q3, q4, q6]
        | message c2 tcs2 =>
          simp only [hr2] at h
          cases h
          refine ⟨?_, ⟨{ s2.cur with llm_responses := s2.cur.llm_responses ++ [orEmpty c2] }, ?_, ?_⟩,
              ?_, ?_, fun M hM hle => TraceInv.write_same (q7 M (hbegin M hM hle)) rfl rfl⟩ <;>
            simp [endPass, doLog, addErr, toolPhase, msgCommon, beginPass, World.setProgress, q1, q2, q3, q4, q6]
      | finished s2 r2 => simp only [hd] at h; cases h

/-- Facts about a pass that ends the Run by completion signal: the pass's
record is sealed, one persistence attempt is made, and the terminal progress
state is set. -/
theorem runPass_finished_facts {L : Libs} {env : RunEnv} {s s1 : RunState} {ret : String}
    (h : runPass L env s = .finished s1 ret) :
    (∃ c, s1.history = s.history ++ [c] ∧ c.iteration = s.iter + 1) ∧
    s1.logCount = s.logCount + 1 ∧
    s1.world.progress.status = "completed" ∧ s1.world.progress.completed = true ∧
    s1.world.progress.max_iterations = s.world.progress.max_iterations ∧
    (∀ M, TraceInv M s.world → s.iter + 1 ≤ M → TraceInv M s1.world) := by
  have hbegin : ∀ M, TraceInv M s.world → s.iter + 1 ≤ M → TraceInv M (beginPass s).world := by
    intro M hM hle
    exact TraceInv.write hM hle hM.1
  unfold runPass at h
  cases hor : (env.oracle (beginPass s).iter).first with
  | raise e => simp only [hor] at h; cases h
  | empty err => simp only [hor] at h; cases h
  | message content tool_calls =>
    simp only [hor] at h
    by_cases htc : tool_calls.isEmpty = true
    · rw [if_pos htc] at h; cases h
    · rw [if_neg htc] at h
      cases hd : dispatchCalls L env tool_calls
          (toolPhase content tool_calls (msgCommon content (beginPass s))) with
      | proceed s2 =>
        simp only [hd] at h
        cases hr2 : (env.oracle s.iter).second <;> simp only [hr2] at h <;> cases h
      | finished s2 r2 =>
        simp only [hd, DispatchResult.finished.injEq] at h
        obtain ⟨rfl, rfl⟩ := h
        rcases dispatchCalls_finished hd with ⟨q1, ⟨c, qc, qi⟩, q3, q4, q5, q6, q7, q8⟩
        exact ⟨⟨c, qc, qi⟩, q3, q4, q5, q7, fun M hM hle => q8 M (hbegin M hM hle)⟩

theorem range'_one_concat (s n : Nat) : List.range' s (n+1) = List.range' s n ++ [s+n] := by
  induction n generalizing s with
  | zero => simp [List.range']
  | succ n ih =>
    rw [List.range'_succ, ih (s+1), List.range'_succ]
    simp [Nat.add_assoc, Nat.add_comm, Nat.add_left_comm]

/-- Whatever state the loop ends in, the terminal writes leave
`status = "completed"` and `completed = true` (src/main.py lines 481-483 on
the signal path, lines 529-533 on the budget path). -/
theorem loopGo_status {L : Libs} {env : RunEnv} :
    ∀ (fuel : Nat) (s : RunState),
    (loopGo L env fuel s).1.world.progress.status = "completed" ∧
    (loopGo L env fuel s).1.world.progress.completed = true
  | 0, s => ⟨rfl, rfl⟩
  | fuel + 1, s => by
    unfold loopGo
    cases hp : runPass L env s with
    | proceed s2 => simpa only [hp] using loopGo_status fuel s2
    | finished s2 ret =>
      rcases runPass_finished_facts hp with ⟨_, _, h4, h5, _, _⟩
      exact ⟨h4, h5⟩

/-- History bookkeeping of the loop: record indices stay the contiguous
sequence `1..length`, every pass attempts exactly one persistence write, and
at most `fuel` further records are created. -/
theorem loopGo_history {L : Libs} {env : RunEnv} :
    ∀ (fuel : Nat) (s : RunState),
    s.history.map (fun r => r.iteration) = List.range' 1 s.history.length →
    s.history.length = s.iter →
    s.logCount = s.history.length →
    (loopGo L env fuel s).1.history.map (fun r => r.iteration) =
      List.range' 1 (loopGo L env fuel s).1.history.length ∧
    (loopGo L env fuel s).1.logCount = (loopGo L env fuel s).1.history.length ∧
    (loopGo L env fuel s).1.history.length ≤ s.iter + fuel
  | 0, s, hmap, hlen, hlog => by
    simp only [loopGo]
    exact ⟨hmap, hlog, by omega⟩
  | fuel + 1, s, hmap, hlen, hlog => by
    unfold loopGo
    cases hp : runPass L env s with
    | proceed s2 =>
      simp only [hp]
      rcases runPass_proceed_facts hp with ⟨p1, ⟨c, pc, pi⟩, p3, _, _⟩
      have hlen2 : s2.history.length = s2.iter := by
        rw [pc, p1]; simp [hlen]
      have hmap2 : s2.history.map (fun r => r.iteration) = List.range' 1 s2.history.length := by
        rw [pc]
        simp only [List.map_append, List.length_append, List.map_cons, List.map_nil,
          List.length_cons, List.length_nil, hmap, pi]
        rw [hlen, range'_one_concat]
        simp [Nat.add_comm]
      have hlog2 : s2.logCount = s2.history.length := by
        rw [p3, pc, hlog]; simp
      rcases loopGo_history fuel s2 hmap2 hlen2 hlog2 with ⟨r1, r2, r3⟩
      exact ⟨r1, r2, by rw [p1] at r3; omega⟩
    | finished s2 ret =>
      simp only [hp]
      rcases runPass_finished_facts hp with ⟨⟨c, pc, pi⟩, p3, _, _, _, _⟩
      refine ⟨?_, ?_, ?_⟩
      · rw [pc]
        simp only [List.map_append, List.length_append, List.map_cons, List.map_nil,
          List.length_cons, List.length_nil, hmap, pi]
        rw [hlen, range'_one_concat]
        simp [Nat.add_comm]
      · rw [p3, pc, hlog]; simp
      · rw [pc]; simp; omega

/-- Observation-trace preservation along the whole loop, given fuel that
matches the distance to the ceiling. -/
theorem loopGo_trace {L : Libs} {env : RunEnv} :
    ∀ (fuel : Nat) (s : RunState) (M : Nat),
    TraceInv M s.world → s.iter + fuel = M →
    TraceInv M (loopGo L env fuel s).1.world
  | 0, s, M, hM, hfuel => by
    simp only [loopGo]
    apply TraceInv.write_same
    · apply TraceInv.write_same
      · exact TraceInv.write_same hM rfl rfl
      · rfl
      · rfl
    · rfl
    · rfl
  | fuel + 1, s, M, hM, hfuel => by
    unfold loopGo
    cases hp : runPass L env s with
    | proceed s2 =>
      simp only [hp]
      rcases runPass_proceed_facts hp with ⟨p1, _, _, _, p5⟩
      exact loopGo_trace fuel s2 M (p5 M hM (by omega)) (by omega)
    | finished s2 ret =>
      simp only [hp]
      rcases runPass_finished_facts hp with ⟨_, _, _, _, _, p6⟩
      exact p6 M hM (by omega)

theorem beginPass_iter (s : RunState) : (beginPass s).iter = s.iter := rfl

theorem isEmpty_append_cons {α : Type} (xs : List α) (y : α) (ys : List α) :
    (xs ++ y :: ys).isEmpty = false := by cases xs <;> rfl

/-- Dispatching a batch that begins with an already-dispatched prefix: once
the prefix proceeds, the rest of the batch is dispatched from the resulting
state. -/
theorem dispatchCalls_append_proceed {L : Libs} {env : RunEnv} :
    ∀ {xs : List ToolCall} {s s1 : RunState}, dispatchCalls L env xs s = .proceed s1 →
    ∀ (ys : List ToolCall), dispatchCalls L env (xs ++ ys) s = dispatchCalls L env ys s1
  | [], s, s1, h, ys => by cases h; rfl
  | tc :: rest, s, s1, h, ys => by
    rw [List.cons_append]
    simp only [dispatchCalls] at h ⊢
    cases hd : dispatchStep L env tc s with
    | proceed s2 =>
      simp only [hd] at h ⊢
      exact dispatchCalls_append_proceed h ys
    | finished s2 r2 => simp only [hd] at h; cases h

/-- The dispatcher reads its environment only through the log-failure
oracle. -/
theorem dispatchStep_env {L : Libs} {env env2 : RunEnv}
    (h : env2.logFails = env.logFails) (tc : ToolCall) (s : RunState) :
    dispatchStep L env2 tc s = dispatchStep L env tc s := by
  simp only [dispatchStep, finishRun, finishState, doLog, h]

theorem dispatchCalls_env {L : Libs} {env env2 : RunEnv}
    (h : env2.logFails = env.logFails) :
    ∀ (calls : List ToolCall) (s : RunState),
    dispatchCalls L env2 calls s = dispatchCalls L env calls s
  | [], s => rfl
  | tc :: rest, s => by
    unfold dispatchCalls
    rw [dispatchStep_env h]
    cases hd : dispatchStep L env tc s with
    | proceed s2 => simp only [dispatchCalls_env h rest s2]
    | finished s2 r2 => rfl

theorem finishState_env {env env2 : RunEnv} (h : env2.logFails = env.logFails)
    (s1 : RunState) : finishState env2 s1 = finishState env s1 := by
  simp only [finishState, doLog, h]

/-- One dispatcher step on a well-formed `task_completed` call always takes
the early-return branch, whatever the state and the rest of the batch. -/
theorem dispatchStep_task_completed (L : Libs) (env : RunEnv) (i : String) (st : RunState) :
    dispatchStep L env ⟨i, "task_completed", .ok []⟩ st =
      finishRun env (succState ⟨i, "task_completed", .ok []⟩ "Task marked as completed."
        (task_completed st.world).2 st) := rfl

theorem dispatchCalls_task_completed (L : Libs) (env : RunEnv) (i : String)
    (post : List ToolCall) (st : RunState) :
    dispatchCalls L env (⟨i, "task_completed", .ok []⟩ :: post) st =
      .finished
        (finishState env (succState ⟨i, "task_completed", .ok []⟩ "Task marked as completed."
          (task_completed st.world).2 st))
        (finishOut (succState ⟨i, "task_completed", .ok []⟩ "Task marked as completed."
          (task_completed st.world).2 st)) := rfl

/-! ## Independence of the Run from persistence outcomes -/

theorem eq_update_of_stripLog_eq {a b : RunState} (h : stripLog a = stripLog b) :
    a = { b with logFile := a.logFile } := by
  cases a; cases b
  simp only [stripLog, RunState.mk.injEq] at h ⊢
  tauto

theorem stripRes_proceed_inv {r : DispatchResult} {t : RunState}
    (h : stripRes r = .proceed t) : ∃ a, r = .proceed a ∧ stripLog a = t := by
  cases r with
  | proceed a => exact ⟨a, rfl, by cases h; rfl⟩
  | finished a r2 => cases h

theorem stripRes_finished_inv {r : DispatchResult} {t : RunState} {ret : String}
    (h : stripRes r = .finished t ret) : ∃ a, r = .finished a ret ∧ stripLog a = t := by
  cases r with
  | proceed a => cases h
  | finished a r2 =>
    simp only [stripRes, DispatchResult.finished.injEq] at h
    exact ⟨a, by rw [h.2], h.1⟩

/-- The outcome of one dispatcher step, up to the persisted log file, does
not depend on the log-failure oracle or on the previously persisted file. -/
theorem dispatchStep_strip (L : Libs) (env : RunEnv) (g : Nat → Bool)
    (lf : Option (List IterationRecord)) (tc : ToolCall) (s : RunState) :
    stripRes (dispatchStep L { env with logFails := g } tc { s with logFile := lf }) =
      stripRes (dispatchStep L env tc s) := by
  unfold dispatchStep
  simp only []
  by_cases hm : tc.name ∉ available_functions
  · rw [if_pos hm, if_pos hm]
    simp [stripRes, stripLog]
  · rw [if_neg hm, if_neg hm]
    rcases ha : tc.arguments with e | args
    · simp [stripRes, stripLog]
    · cases hc : callFunction L tc.name args s.world with
      | error e => simp [hc, stripRes, stripLog]
      | ok rw2 =>
        simp only [hc]
        by_cases ht : (tc.name == "task_completed") = true
        · simp [ht, stripRes, stripLog, finishRun, finishState, finishOut, doLog, succState]
        · simp [ht, stripRes, stripLog, succState]

/-- Batch version of `dispatchStep_strip`. -/
theorem dispatchCalls_strip (L : Libs) (env : RunEnv) (g : Nat → Bool) :
    ∀ (calls : List ToolCall) (s : RunState) (lf : Option (List IterationRecord)),
    stripRes (dispatchCalls L { env with logFails := g } calls { s with logFile := lf }) =
      stripRes (dispatchCalls L env calls s)
  | [], s, lf => by simp [dispatchCalls, stripRes, stripLog]
  | tc :: rest, s, lf => by
    simp only [dispatchCalls]
    have hstep := dispatchStep_strip L env g lf tc s
    cases hd : dispatchStep L env tc s with
    | proceed s2 =>
      rw [hd] at hstep
      rcases stripRes_proceed_inv hstep with ⟨a, ha, hsa⟩
      rw [ha]
      have hform := eq_update_of_stripLog_eq hsa
      rw [hform]
      exact dispatchCalls_strip L env g rest s2 a.logFile
    | finished s2 r2 =>
      rw [hd] at hstep
      rcases stripRes_finished_inv hstep with ⟨a, ha, hsa⟩
      rw [ha]
      simp [stripRes, hsa]

/-- Pass-level independence from persistence outcomes. -/
theorem runPass_strip (L : Libs) (env : RunEnv) (g : Nat → Bool)
    (lf : Option (List IterationRecord)) (s : RunState) :
    stripRes (runPass L { env with logFails := g } { s with logFile := lf }) =
      stripRes (runPass L env s) := by
  unfold runPass
  simp only [beginPass_iter]
  cases hor : (env.oracle s.iter).first with
  | raise e =>
    simp only [hor]
    simp [endPass, doLog, stripRes, stripLog, beginPass, addErr]
  | empty err =>
    simp only [hor]
    simp [endPass, doLog, stripRes, stripLog, beginPass, addErr]
  | message content tool_calls =>
    simp only [hor]
    by_cases htc : tool_calls.isEmpty = true
    · simp only [if_pos htc]
      simp [endPass, doLog, stripRes, stripLog, beginPass, msgCommon, World.setProgress]
    · simp only [if_neg htc]
      have hpre : toolPhase content tool_calls (msgCommon content (beginPass { s with logFile := lf }))
          = { toolPhase content tool_calls (msgCommon content (beginPass s)) with logFile := lf } := rfl
      rw [hpre]
      have hds := dispatchCalls_strip L env g tool_calls
        (toolPhase content tool_calls (msgCommon content (beginPass s))) lf
      cases hd : dispatchCalls L env tool_calls
          (toolPhase content tool_calls (msgCommon content (beginPass s))) with
      | finished s2 r2 =>
        rw [hd] at hds
        rcases stripRes_finished_inv hds with ⟨a, ha, hsa⟩
        simp only [ha, hd, stripRes, hsa]
      | proceed s2 =>
        rw [hd] at hds
        rcases stripRes_proceed_inv hds with ⟨a, ha, hsa⟩
        simp only [ha, hd]
        have hform := eq_update_of_stripLog_eq hsa
        rw [hform]
        cases hr2 : (env.oracle s.iter).second with
        | raise e =>
          simp only [hr2]
          simp [endPass, doLog, stripRes, stripLog, addErr]
        | empty err =>
          simp only [hr2]
          simp [endPass, doLog, stripRes, stripLog, addErr, World.setProgress]
        | message c2 tcs2 =>
          simp only [hr2]
          simp [endPass, doLog, stripRes, stripLog, World.setProgress]

/-- Loop-level independence from persistence outcomes. -/
theorem loopGo_strip (L : Libs) (env : RunEnv) (g : Nat → Bool) :
    ∀ (fuel : Nat) (s : RunState) (lf : Option (List IterationRecord)),
    stripLog (loopGo L { env with logFails := g } fuel { s with logFile := lf }).1 =
      stripLog (loopGo L env fuel s).1 ∧
    (loopGo L { env with logFails := g } fuel { s with logFile := lf }).2 =
      (loopGo L env fuel s).2
  | 0, s, lf => by
    constructor <;> simp [loopGo, stripLog, World.setProgress]
  | fuel + 1, s, lf => by
    simp only [loopGo]
    have hrp := runPass_strip L env g lf s
    cases hp : runPass L env s with
    | proceed s2 =>
      rw [hp] at hrp
      rcases stripRes_proceed_inv hrp with ⟨a, ha, hsa⟩
      simp only [ha, hp]
      have hform := eq_update_of_stripLog_eq hsa
      rw [hform]
      exact loopGo_strip L env g fuel s2 a.logFile
    | finished s2 r2 =>
      rw [hp] at hrp
      rcases stripRes_finished_inv hrp with ⟨a, ha, hsa⟩
      simp only [ha, hp]
      exact ⟨hsa, trivial⟩

/-- Run-level independence from persistence outcomes: changing the
log-failure oracle and the pre-existing log file affects nothing but the
log file itself. -/
theorem run_main_loop_strip (L : Libs) (env : RunEnv) (g : Nat → Bool) (w0 : World)
    (lf1 lf2 : Option (List IterationRecord)) :
    stripLog (run_main_loop L { env with logFails := g } w0 lf1).1 =
      stripLog (run_main_loop L env w0 lf2).1 ∧
    (run_main_loop L { env with logFails := g } w0 lf1).2 =
      (run_main_loop L env w0 lf2).2 := by
  unfold run_main_loop
  simp only []
  by_cases hs : env.supportsFC = true
  · rw [if_neg (by simp [hs]), if_neg (by simp [hs])]
    exact loopGo_strip L env g w0.progress.max_iterations
      { world := w0,
        messages :=
          [⟨"system", some env.instructions, [], none, none⟩,
           ⟨"user", some env.user_input, [], none, none⟩,
           ⟨"system", some historyDumpEmpty, [], none, none⟩],
        history := [], cur := ⟨0, [], [], [], []⟩, iter := 0, output := "",
        logFile := lf2, logCount := 0 } lf1
  · rw [if_pos (by simp [hs]), if_pos (by simp [hs])]
    constructor <;> simp [stripLog]

/-- Outcome-trace characterization of a dispatched batch.  The witness list
`outs` records, in order, every ToolCall the dispatcher actually reached,
paired with the world it was executed against and either the result string
of a successful execution or the error entry recorded for a failed one.
The conversation messages and tool results appended during dispatch are
exactly those of the successful outcomes, the error entries appended are
exactly those of the failed outcomes, the executed calls form a prefix of
the batch, and every outcome carries evidence for its mode: a success was
registered, parsed, and its capability returned normally at that world; a
failure was an unregistered name, a non-parseable payload, or a capability
that raised at that world. -/
theorem dispatchCalls_outcomes (L : Libs) (env : RunEnv) :
    ∀ (calls : List ToolCall) (s : RunState),
    ∃ outs : List (ToolCall × World × Except ErrorEntry String),
      (resState (dispatchCalls L env calls s)).messages =
        s.messages ++ outs.filterMap (fun o =>
          match o.2.2 with
          | .ok r => some (toolMsg o.1 r)
          | .error _ => none) ∧
      (resState (dispatchCalls L env calls s)).cur.tool_results =
        s.cur.tool_results ++ outs.filterMap (fun o =>
          match o.2.2 with
          | .ok r => some ((⟨o.1.name, r⟩ : ToolResult))
          | .error _ => none) ∧
      (resState (dispatchCalls L env calls s)).cur.errors =
        s.cur.errors ++ outs.filterMap (fun o =>
          match o.2.2 with
          | .ok _ => none
          | .error ee => some ee) ∧
      (∃ rest, calls = outs.map (fun o => o.1) ++ rest) ∧
      (∀ o ∈ outs, o.1 ∈ calls ∧
        (∀ r, o.2.2 = .ok r → o.1.name ∈ available_functions ∧
          ∃ args w2, o.1.arguments = .ok args ∧
            callFunction L o.1.name args o.2.1 = .ok (r, w2)) ∧
        (∀ ee, o.2.2 = .error ee →
          (o.1.name ∉ available_functions ∧ ee = unavailErr o.1.name) ∨
          (∃ e, o.1.arguments = .error e ∧ ee = execErr L o.1.name e) ∨
          (∃ args e, o.1.arguments = .ok args ∧
            callFunction L o.1.name args o.2.1 = .error e ∧ ee = execErr L o.1.name e)))
  | [], s => ⟨[], by simp [dispatchCalls, resState], by simp [dispatchCalls, resState],
      by simp [dispatchCalls, resState], ⟨[], rfl⟩, by intro o ho; cases ho⟩
  | tc :: rest, s => by
    by_cases hm : tc.name ∈ available_functions
    · rcases ha : tc.arguments with e | args
      · have hstep : dispatchStep L env tc s =
            .proceed { s with cur := addErr s.cur (execErr L tc.name e) } := by
          simp [dispatchStep, hm, ha]
        have hcons : dispatchCalls L env (tc :: rest) s =
            dispatchCalls L env rest { s with cur := addErr s.cur (execErr L tc.name e) } := by
          simp [dispatchCalls, hstep]
        rw [hcons]
        rcases dispatchCalls_outcomes L env rest
          { s with cur := addErr s.cur (execErr L tc.name e) } with
          ⟨outs, h1, h2, h3, ⟨r2, h4⟩, h5⟩
        refine ⟨(tc, s.world, .error (execErr L tc.name e)) :: outs,
          ?_, ?_, ?_, ⟨r2, ?_⟩, ?_⟩
        · rw [h1]; simp [List.filterMap_cons]
        · rw [h2]; simp [addErr, List.filterMap_cons]
        · rw [h3]; simp [addErr, List.filterMap_cons]
        · simp [h4]
        · intro o ho
          rcases List.mem_cons.mp ho with rfl | ho2
          · refine ⟨List.mem_cons_self tc rest, ?_, ?_⟩
            · intro r hr; cases hr
            · intro ee hee
              cases hee
              exact .inr (.inl ⟨e, ha, rfl⟩)
          · rcases h5 o ho2 with ⟨hmem, hok, herr⟩
            exact ⟨List.mem_cons_of_mem _ hmem, hok, herr⟩
      · cases hc : callFunction L tc.name args s.world with
        | error e =>
          have hstep : dispatchStep L env tc s =
              .proceed { s with cur := addErr s.cur (execErr L tc.name e) } := by
            simp [dispatchStep, hm, ha, hc]
          have hcons : dispatchCalls L env (tc :: rest) s =
              dispatchCalls L env rest { s with cur := addErr s.cur (execErr L tc.name e) } := by
            simp [dispatchCalls, hstep]
          rw [hcons]
          rcases dispatchCalls_outcomes L env rest
            { s with cur := addErr s.cur (execErr L tc.name e) } with
            ⟨outs, h1, h2, h3, ⟨r2, h4⟩, h5⟩
          refine ⟨(tc, s.world, .error (execErr L tc.name e)) :: outs,
            ?_, ?_, ?_, ⟨r2, ?_⟩, ?_⟩
          · rw [h1]; simp [List.filterMap_cons]
          · rw [h2]; simp [addErr, List.filterMap_cons]
          · rw [h3]; simp [addErr, List.filterMap_cons]
          · simp [h4]
          · intro o ho
            rcases List.mem_cons.mp ho with rfl | ho2
            · refine ⟨List.mem_cons_self tc rest, ?_, ?_⟩
              · intro r hr; cases hr
              · intro ee hee
                cases hee
                exact .inr (.inr ⟨args, e, ha, hc, rfl⟩)
            · rcases h5 o ho2 with ⟨hmem, hok, herr⟩
              exact ⟨List.mem_cons_of_mem _ hmem, hok, herr⟩
        | ok rw2 =>
          by_cases ht : (tc.name == "task_completed") = true
          · have hstep : dispatchStep L env tc s = finishRun env (succState tc rw2.1 rw2.2 s) := by
              simp [dispatchStep, hm, ha, hc, ht]
            have hcons : dispatchCalls L env (tc :: rest) s =
                .finished (finishState env (succState tc rw2.1 rw2.2 s))
                  (finishOut (succState tc rw2.1 rw2.2 s)) := by
              simp [dispatchCalls, hstep, finishRun]
            rw [hcons]
            refine ⟨[(tc, s.world, .ok rw2.1)], ?_, ?_, ?_, ⟨rest, rfl⟩, ?_⟩
            · simp [resState, finishState, doLog, succState, List.filterMap_cons]
            · simp [resState, finishState, doLog, succState, List.filterMap_cons]
            · simp [resState, finishState, doLog, succState, List.filterMap_cons]
            · intro o ho
              rcases List.mem_singleton.mp ho with rfl
              refine ⟨List.mem_cons_self tc rest, ?_, ?_⟩
              · intro r hr
                cases hr
                exact ⟨hm, args, rw2.2, ha, hc⟩
              · intro ee hee; cases hee
          · have hstep : dispatchStep L env tc s = .proceed (succState tc rw2.1 rw2.2 s) := by
              simp [dispatchStep, hm, ha, hc, ht]
            have hcons : dispatchCalls L env (tc :: rest) s =
                dispatchCalls L env rest (succState tc rw2.1 rw2.2 s) := by
              simp [dispatchCalls, hstep]
            rw [hcons]
            rcases dispatchCalls_outcomes L env rest (succState tc rw2.1 rw2.2 s) with
              ⟨outs, h1, h2, h3, ⟨r2, h4⟩, h5⟩
            refine ⟨(tc, s.world, .ok rw2.1) :: outs, ?_, ?_, ?_, ⟨r2, ?_⟩, ?_⟩
            · rw [h1]; simp [succState, List.filterMap_cons]
            · rw [h2]; simp [succState, List.filterMap_cons]
            · rw [h3]; simp [succState, List.filterMap_cons]
            · simp [h4]
            · intro o ho
              rcases List.mem_cons.mp ho with rfl | ho2
              · refine ⟨List.mem_cons_self tc rest, ?_, ?_⟩
                · intro r hr
                  cases hr
                  exact ⟨hm, args, rw2.2, ha, hc⟩
                · intro ee hee; cases hee
              · rcases h5 o ho2 with ⟨hmem, hok, herr⟩
                exact ⟨List.mem_cons_of_mem _ hmem, hok, herr⟩
    · have hstep : dispatchStep L env tc s =
          .proceed { s with cur := addErr s.cur (unavailErr tc.name) } := by
        simp [dispatchStep, hm]
      have hcons : dispatchCalls L env (tc :: rest) s =
          dispatchCalls L env rest { s with cur := addErr s.cur (unavailErr tc.name) } := by
        simp [dispatchCalls, hstep]
      rw [hcons]
      rcases dispatchCalls_outcomes L env rest
        { s with cur := addErr s.cur (unavailErr tc.name) } with
        ⟨outs, h1, h2, h3, ⟨r2, h4⟩, h5⟩
      refine ⟨(tc, s.world, .error (unavailErr tc.name)) :: outs,
        ?_, ?_, ?_, ⟨r2, ?_⟩, ?_⟩
      · rw [h1]; simp [List.filterMap_cons]
      · rw [h2]; simp [addErr, List.filterMap_cons]
      · rw [h3]; simp [addErr, List.filterMap_cons]
      · simp [h4]
      · intro o ho
        rcases List.mem_cons.mp ho with rfl | ho2
        · refine ⟨List.mem_cons_self tc rest, ?_, ?_⟩
          · intro r hr; cases hr
          · intro ee hee
            cases hee
            exact .inl ⟨hm, rfl⟩
        · rcases h5 o ho2 with ⟨hmem, hok, herr⟩
          exact ⟨List.mem_cons_of_mem _ hmem, hok, herr⟩

/-! ## Association-list lemmas for the code store -/

theorem setEntry_map_noop (k v : String) :
    ∀ (l : List (String × String)), (∀ p ∈ l, (p.1 == k) = false) →
    l.map (fun p => if p.1 == k then (k, v) else p) = l
  | [], _ => rfl
  | hd :: tl, hno => by
    have hhead : (if hd.1 == k then (k, v) else hd) = hd := by
      simp [hno hd (by simp)]
    rw [List.map_cons, hhead, setEntry_map_noop k v tl (fun p hp => hno p (by simp [hp]))]

theorem getEntry_map_self (k v : String) :
    ∀ (l : List (String × String)), (l.find? (fun p => p.1 == k)).isSome = true →
    getEntry (l.map (fun p => if p.1 == k then (k, v) else p)) k = some v
  | [], hf => by simp at hf
  | hd :: tl, hf => by
    by_cases hh : (hd.1 == k) = true
    · have hhead : (if hd.1 == k then (k, v) else hd) = (k, v) := by simp [hh]
      rw [List.map_cons, hhead]
      simp [getEntry, List.find?_cons]
    · have hhead : (if hd.1 == k then (k, v) else hd) = hd := by simp [hh]
      rw [List.map_cons, hhead]
      have hf2 : (tl.find? (fun p => p.1 == k)).isSome = true := by
        simpa [List.find?_cons, hh] using hf
      have htl := getEntry_map_self k v tl hf2
      unfold getEntry at htl ⊢
      rw [List.find?_cons]
      simp only [hh]
      exact htl

theorem getEntry_map_ne (k v k2 : String) (hne : k2 ≠ k) :
    ∀ (l : List (String × String)),
    getEntry (l.map (fun p => if p.1 == k then (k, v) else p)) k2 = getEntry l k2
  | [] => rfl
  | hd :: tl => by
    have hk2 : (k == k2) = false := beq_eq_false_iff_ne.mpr (fun hc => hne hc.symm)
    have htl := getEntry_map_ne k v k2 hne tl
    by_cases hh : (hd.1 == k) = true
    · have hhead : (if hd.1 == k then (k, v) else hd) = (k, v) := by simp [hh]
      have hd2 : (hd.1 == k2) = false := by rw [beq_iff_eq.mp hh]; exact hk2
      rw [List.map_cons, hhead]
      unfold getEntry at htl ⊢
      rw [List.find?_cons, List.find?_cons]
      simp only [hk2, hd2]
      exact htl
    · have hhead : (if hd.1 == k then (k, v) else hd) = hd := by simp [hh]
      rw [List.map_cons, hhead]
      by_cases hh2 : (hd.1 == k2) = true
      · simp [getEntry, List.find?_cons, hh2]
      · unfold getEntry at htl ⊢
        rw [List.find?_cons, List.find?_cons]
        simp only [hh2]
        exact htl

/-- Reading back a stored row: the upsert always leaves the row readable
under its key. -/
theorem getEntry_setEntry_self (m : List (String × String)) (k v : String) :
    getEntry (setEntry m k v) k = some v := by
  unfold setEntry
  split
  · rename_i hf
    exact getEntry_map_self k v m hf
  · rename_i hf
    have hnone : m.find? (fun p => p.1 == k) = none :=
      Option.not_isSome_iff_eq_none.mp hf
    simp [getEntry, List.find?_append, hnone]

/-- The upsert never disturbs rows stored under other keys. -/
theorem getEntry_setEntry_ne (m : List (String × String)) (k v k2 : String)
    (h : k2 ≠ k) : getEntry (setEntry m k v) k2 = getEntry m k2 := by
  unfold setEntry
  split
  · exact getEntry_map_ne k v k2 h m
  · have hne : ((k, v).1 == k2) = false := beq_eq_false_iff_ne.mpr (fun hc => h hc.symm)
    simp only [getEntry, List.find?_append, hne]
    cases m.find? (fun p => p.1 == k2) <;> simp [List.find?, hne]

/-- Re-upserting the identical row is a no-op on the table. -/
theorem setEntry_idem (m : List (String × String)) (k v : String) :
    setEntry (setEntry m k v) k v = setEntry m k v := by
  have hsame : ∀ (l : List (String × String)),
      (l.map (fun p => if p.1 == k then (k, v) else p)).map
        (fun p => if p.1 == k then (k, v) else p) =
      l.map (fun p => if p.1 == k then (k, v) else p) := by
    intro l
    rw [List.map_map]
    refine List.map_congr_left ?_
    intro a _
    simp only [Function.comp]
    by_cases hh : (a.1 == k) = true
    · simp [hh]
    · simp [hh]
  unfold setEntry
  split
  · rename_i hf
    rcases Option.isSome_iff_exists.mp hf with ⟨a, hfa⟩
    have hamem := List.mem_of_find?_eq_some hfa
    have hak : (a.1 == k) = true := by
      have hq := List.find?_some hfa
      simpa using hq
    have hmem2 : (k, v) ∈ m.map (fun p => if p.1 == k then (k, v) else p) :=
      List.mem_map.mpr ⟨a, hamem, by simp [hak]⟩
    have hfind2 : ((m.map (fun p => if p.1 == k then (k, v) else p)).find?
        (fun p => p.1 == k)).isSome = true := by
      rw [List.find?_isSome]
      exact ⟨(k, v), hmem2, by simp⟩
    rw [if_pos hfind2]
    exact hsame m
  · rename_i hf
    have hnone : m.find? (fun p => p.1 == k) = none :=
      Option.not_isSome_iff_eq_none.mp hf
    have hfind2 : (((m ++ [(k, v)]).find? (fun p => p.1 == k))).isSome = true := by
      rw [List.find?_isSome]
      exact ⟨(k, v), by simp, by simp⟩
    rw [if_pos hfind2]
    have hno : ∀ p ∈ m, (p.1 == k) = false := by
      intro p hp
      have hq := List.find?_eq_none.mp hnone p hp
      simpa using hq
    rw [List.map_append, setEntry_map_noop k v m hno]
    simp

/-! ## Run-level lemmas and claim theorems -/

theorem run_main_loop_trace (L : Libs) (env : RunEnv) (w0 : World)
    (lf : Option (List IterationRecord))
    (hM : TraceInv w0.progress.max_iterations w0) :
    TraceInv w0.progress.max_iterations (run_main_loop L env w0 lf).1.world := by
  unfold run_main_loop
  by_cases hs : env.supportsFC = true
  · rw [if_neg (by simp [hs])]
    exact loopGo_trace _ _ _ hM (by simp)
  · rw [if_pos (by simpa using hs)]
    simp only []
    apply TraceInv.write_same
    · apply TraceInv.write_same
      · exact TraceInv.write_same hM rfl rfl
      · rfl
      · rfl
    · rfl
    · rfl

/-- Claim C2: for every Run (started through the serving layer, which
resets the progress record), `ProgressState.iteration ≤ max_iterations`
holds at every observation point: every value ever written to the global
progress record — the ghost trace — satisfies the bound, as does the final
progress record.  The hypotheses only ask that the pre-existing process
state already satisfied the bound (the initial dict does: iteration 0,
ceiling 50, empty trace). -/
theorem progress_iteration_le_max (L : Libs) (env : RunEnv) (w0 : World)
    (lf : Option (List IterationRecord))
    (h0 : w0.progress.iteration ≤ w0.progress.max_iterations)
    (ht : ∀ p ∈ w0.trace, p.iteration ≤ p.max_iterations) :
    (∀ p ∈ (start_run L env w0 lf).1.world.trace, p.iteration ≤ p.max_iterations) ∧
    (start_run L env w0 lf).1.world.progress.iteration ≤
      (start_run L env w0 lf).1.world.progress.max_iterations := by
  have hM : TraceInv w0.progress.max_iterations w0 := ⟨rfl, h0, ht⟩
  unfold start_run
  refine (fun hfin => ⟨hfin.2.2, by rw [hfin.1]; exact hfin.2.1⟩)
    (run_main_loop_trace L env _ lf ?_)
  apply TraceInv.write_same
  · apply TraceInv.write_same
    · apply TraceInv.write
      · exact hM.write_same rfl rfl
      · exact Nat.zero_le _
      · rfl
    · rfl
    · rfl
  · rfl
  · rfl

/-- Claim C3: the artifact id embedded in `store_code`'s reply is a pure
deterministic function of the stored content (independent of the database
state); re-storing identical content leaves the table unchanged and the
row readable; and, assuming the two contents hash differently
(collision-freedom of SHA-256), storing a second, different content
allocates a distinct id — both rows coexist, neither is overwritten. -/
theorem store_code_content_addressed (L : Libs) (c1 c2 : String) (w w2 : World) :
    (store_code L c1 w).1 = (store_code L c1 w2).1 ∧
    (store_code L c1 (store_code L c1 w).2).2.db = (store_code L c1 w).2.db ∧
    getEntry (store_code L c1 (store_code L c1 w).2).2.db (L.sha256hex c1) = some c1 ∧
    (L.sha256hex c1 ≠ L.sha256hex c2 →
      getEntry (store_code L c2 (store_code L c1 w).2).2.db (L.sha256hex c1) = some c1 ∧
      getEntry (store_code L c2 (store_code L c1 w).2).2.db (L.sha256hex c2) = some c2) := by
  refine ⟨rfl, ?_, ?_, fun hne => ⟨?_, ?_⟩⟩
  · simp only [store_code]
    exact setEntry_idem w.db (L.sha256hex c1) c1
  · simp only [store_code]
    rw [setEntry_idem w.db (L.sha256hex c1) c1]
    exact getEntry_setEntry_self w.db (L.sha256hex c1) c1
  · simp only [store_code]
    rw [getEntry_setEntry_ne _ _ _ _ hne]
    exact getEntry_setEntry_self w.db (L.sha256hex c1) c1
  · simp only [store_code]
    exact getEntry_setEntry_self _ (L.sha256hex c2) c2

/-- Witness for C2 at a concrete Run. -/
theorem progress_iteration_le_max_witness :
    (start_run wLibs wEnvEmpty wWorld none).1.world.progress.iteration ≤
      (start_run wLibs wEnvEmpty wWorld none).1.world.progress.max_iterations :=
  (progress_iteration_le_max wLibs wEnvEmpty wWorld none (by decide)
    (by intro p hp; cases hp)).2

/-- Witness for C3 at concrete contents with distinct stand-in hashes. -/
theorem store_code_content_addressed_witness :
    getEntry (store_code wLibs "beta" (store_code wLibs "alpha" wWorld).2).2.db
      (wLibs.sha256hex "alpha") = some "alpha" ∧
    getEntry (store_code wLibs "beta" (store_code wLibs "alpha" wWorld).2).2.db
      (wLibs.sha256hex "beta") = some "beta" :=
  (store_code_content_addressed wLibs "alpha" "beta" wWorld wWorld).2.2.2 (by decide)

/-- Claim C7: after any number of completed loop passes, the RunHistory
holds exactly one record per pass whose indices are the contiguous sequence
`1..length` (stated as a map/range equation), persistence is attempted
exactly once per pass — `logCount` equals the history length, including the
anomaly and caught-exception passes — and the history never grows beyond
`max_iterations`. -/
theorem history_contiguous_and_persisted (L : Libs) (env : RunEnv) (w0 : World)
    (lf : Option (List IterationRecord)) :
    (run_main_loop L env w0 lf).1.history.map (fun r => r.iteration) =
      List.range' 1 (run_main_loop L env w0 lf).1.history.length ∧
    (run_main_loop L env w0 lf).1.logCount = (run_main_loop L env w0 lf).1.history.length ∧
    (run_main_loop L env w0 lf).1.history.length ≤ w0.progress.max_iterations := by
  unfold run_main_loop
  by_cases hs : env.supportsFC = true
  · rw [if_neg (by simp [hs])]
    have h := @loopGo_history L env w0.progress.max_iterations
      { world := w0,
        messages :=
          [⟨"system", some env.instructions, [], none, none⟩,
           ⟨"user", some env.user_input, [], none, none⟩,
           ⟨"system", some historyDumpEmpty, [], none, none⟩],
        history := [], cur := ⟨0, [], [], [], []⟩,
        iter := 0, output := "", logFile := lf, logCount := 0 }
      (by simp [List.range']) rfl rfl
    exact ⟨h.1, h.2.1, by simpa using h.2.2⟩
  · rw [if_pos (by simpa using hs)]
    exact ⟨by simp [List.range'], rfl, by simp⟩

/-- Claim C8: if the configured model does not support tool calling, the Run
fails fast — `status = "error"`, `completed = true`, zero IterationRecords,
and the fixed message is returned — and this precheck is the only path that
reports `status = "error"`: whenever the precheck passes, the Run terminates
with `status = "completed"` (both the signal and the budget path). -/
theorem precheck_only_error_path (L : Libs) (env : RunEnv) (w0 : World)
    (lf : Option (List IterationRecord)) :
    (env.supportsFC = false →
      (run_main_loop L env w0 lf).1.world.progress.status = "error" ∧
      (run_main_loop L env w0 lf).1.world.progress.completed = true ∧
      (run_main_loop L env w0 lf).1.history = [] ∧
      (run_main_loop L env w0 lf).2 = "Model does not support function calling.") ∧
    (env.supportsFC = true →
      (run_main_loop L env w0 lf).1.world.progress.status = "completed") := by
  constructor
  · intro hs
    unfold run_main_loop
    rw [if_pos (by simp [hs])]
    exact ⟨rfl, rfl, rfl, rfl⟩
  · intro hs
    unfold run_main_loop
    rw [if_neg (by simp [hs])]
    exact (loopGo_status _ _).1

/-- Claim C9: `log_to_file` swallows persistence failures — on a failing
write it returns normally leaving the previous file, on a successful write
it replaces it — and consequently the entire Run is independent of the
persistence layer: changing the write-failure oracle and the pre-existing
log file changes nothing about the final state except the log file itself,
and the returned value is identical, so a write failure can never abort the
Run. -/
theorem persistence_failure_swallowed (L : Libs) (env : RunEnv) (g : Nat → Bool)
    (w0 : World) (lf1 lf2 : Option (List IterationRecord)) :
    (∀ (hist : List IterationRecord) (file : Option (List IterationRecord)),
       log_to_file true hist file = file ∧ log_to_file false hist file = some hist) ∧
    stripLog (run_main_loop L { env with logFails := g } w0 lf1).1 =
      stripLog (run_main_loop L env w0 lf2).1 ∧
    (run_main_loop L { env with logFails := g } w0 lf1).2 =
      (run_main_loop L env w0 lf2).2 := by
  refine ⟨fun hist file => ⟨rfl, rfl⟩, ?_, ?_⟩
  · exact (run_main_loop_strip L env g w0 lf1 lf2).1
  · exact (run_main_loop_strip L env g w0 lf1 lf2).2

/-- Claim C6: when gateway round 1 returns no usable message, the pass is
the anomaly-recovery path: the resulting state is exactly the input state
with the progress-iteration write, a sealed IterationRecord containing the
single `llm_completion` error entry and nothing else (no captured content,
no tool results), the iteration counter advanced by exactly one, and one
persistence attempt; the conversation, output and world are otherwise
untouched, and neither the tool dispatcher nor the round-2 gateway call is
consulted (the right-hand side does not mention them). -/
theorem empty_response_anomaly (L : Libs) (env : RunEnv) (s : RunState) (err : String)
    (hor : (env.oracle s.iter).first = .empty err) :
    runPass L env s = .proceed
      { s with
        world := s.world.setProgress { s.world.progress with iteration := s.iter + 1 },
        cur := ⟨s.iter + 1, [], [], [], [⟨"llm_completion", err, none⟩]⟩,
        iter := s.iter + 1,
        history := s.history ++ [⟨s.iter + 1, [], [], [], [⟨"llm_completion", err, none⟩]⟩],
        logFile := log_to_file (env.logFails s.logCount)
          (s.history ++ [⟨s.iter + 1, [], [], [], [⟨"llm_completion", err, none⟩]⟩])
          s.logFile,
        logCount := s.logCount + 1 } := by
  unfold runPass
  simp only [beginPass_iter, hor]
  rfl

/-- Witness for C8: the precheck-failure Run reports the error status and
the precheck-success Run completes. -/
theorem precheck_only_error_path_witness :
    (run_main_loop wLibs wEnvNoFC wWorld none).1.world.progress.status = "error" ∧
    (run_main_loop wLibs wEnvEmpty wWorld none).1.world.progress.status = "completed" :=
  ⟨((precheck_only_error_path wLibs wEnvNoFC wWorld none).1 rfl).1,
   (precheck_only_error_path wLibs wEnvEmpty wWorld none).2 rfl⟩

/-- Witness for C6 at a concrete anomalous pass. -/
theorem empty_response_anomaly_witness :
    runPass wLibs wEnvEmpty wState = .proceed
      { wState with
        world := wState.world.setProgress
          { wState.world.progress with iteration := wState.iter + 1 },
        cur := ⟨wState.iter + 1, [], [], [],
          [⟨"llm_completion", "Unknown error", none⟩]⟩,
        iter := wState.iter + 1,
        history := wState.history ++ [⟨wState.iter + 1, [], [], [],
          [⟨"llm_completion", "Unknown error", none⟩]⟩],
        logFile := log_to_file (wEnvEmpty.logFails wState.logCount)
          (wState.history ++ [⟨wState.iter + 1, [], [], [],
            [⟨"llm_completion", "Unknown error", none⟩]⟩])
          wState.logFile,
        logCount := wState.logCount + 1 } :=
  empty_response_anomaly wLibs wEnvEmpty wState "Unknown error" rfl

/-- Claim C4: dispatching a ToolCall whose name is not in the registry
never escapes the Dispatcher: the step is exactly the recording of one
non-fatal error entry — `Tool '<name>' is not available.` with the
`tool_call_<name>` action tag — after which dispatch continues with the
remaining ToolCalls of the batch from an otherwise unchanged state (in
particular no message, output, world or history change, and no abort). -/
theorem unregistered_tool_nonfatal (L : Libs) (env : RunEnv) (tc : ToolCall)
    (rest : List ToolCall) (s : RunState)
    (h : tc.name ∉ available_functions) :
    dispatchCalls L env (tc :: rest) s =
      dispatchCalls L env rest
        { s with cur := { s.cur with errors := s.cur.errors ++
            [⟨"tool_call_" ++ tc.name,
              "Tool \x27" ++ tc.name ++ "\x27 is not available.",
              some "No traceback available."⟩] } } := by
  have hstep : dispatchStep L env tc s =
      .proceed { s with cur := addErr s.cur (unavailErr tc.name) } := by
    simp [dispatchStep, h]
  simp only [dispatchCalls, hstep]
  rfl

/-- Claim C5: a ToolCall whose argument payload fails to parse, or whose
capability raises during execution, is caught inside the Dispatcher: the
step is exactly the recording of one non-fatal error entry carrying the
action tag `tool_call_<name>`, the message `Error executing <name>: <e>`,
and the traceback, after which dispatch continues with the remaining
ToolCalls — so the fault never terminates the Run. -/
theorem dispatch_fault_nonfatal (L : Libs) (env : RunEnv) (tc : ToolCall)
    (rest : List ToolCall) (s : RunState) (e : String)
    (args : List (String × String)) (hm : tc.name ∈ available_functions) :
    (tc.arguments = .error e →
      dispatchCalls L env (tc :: rest) s =
        dispatchCalls L env rest
          { s with cur := { s.cur with errors := s.cur.errors ++
              [⟨"tool_call_" ++ tc.name, "Error executing " ++ tc.name ++ ": " ++ e,
                some (L.format_exc e)⟩] } }) ∧
    (tc.arguments = .ok args → callFunction L tc.name args s.world = .error e →
      dispatchCalls L env (tc :: rest) s =
        dispatchCalls L env rest
          { s with cur := { s.cur with errors := s.cur.errors ++
              [⟨"tool_call_" ++ tc.name, "Error executing " ++ tc.name ++ ": " ++ e,
                some (L.format_exc e)⟩] } }) := by
  constructor
  · intro ha
    have hstep : dispatchStep L env tc s =
        .proceed { s with cur := addErr s.cur (execErr L tc.name e) } := by
      simp [dispatchStep, hm, ha]
    simp only [dispatchCalls, hstep]
    rfl
  · intro ha hc
    have hstep : dispatchStep L env tc s =
        .proceed { s with cur := addErr s.cur (execErr L tc.name e) } := by
      simp [dispatchStep, hm, ha, hc]
    simp only [dispatchCalls, hstep]
    rfl

/-- Claim C1: if `task_completed` is successfully invoked during an
iteration — it is reached with parseable (empty) arguments after a prefix of
the batch that did not itself complete — then (i) the ToolCalls after it in
the batch are not executed (dispatching the batch from the signal onwards
equals dispatching the signal alone), (ii) the pass returns `finished`
immediately with the terminal progress state (`status = "completed"`,
`completed = true`) and the loop stops there, and (iii) no second
(follow-up) gateway call is issued for the iteration: any environment that
agrees on the round-1 oracle and the persistence oracle — whatever its
round-2 oracle — produces the identical pass result. -/
theorem task_completed_terminates_run (L : Libs) (env env2 : RunEnv)
    (s s1 : RunState) (content : Option String) (i : String)
    (pre post : List ToolCall)
    (hor : (env.oracle s.iter).first =
      .message content (pre ++ (⟨i, "task_completed", .ok []⟩ : ToolCall) :: post))
    (hpre : dispatchCalls L env pre
      (preDispatch content (pre ++ (⟨i, "task_completed", .ok []⟩ : ToolCall) :: post) s) =
      .proceed s1)
    (hlog : env2.logFails = env.logFails)
    (hfirst : ∀ n, (env2.oracle n).first = (env.oracle n).first) :
    (∀ st : RunState,
      dispatchCalls L env ((⟨i, "task_completed", .ok []⟩ : ToolCall) :: post) st =
        dispatchCalls L env [⟨i, "task_completed", .ok []⟩] st) ∧
    (∃ s2 ret, runPass L env s = .finished s2 ret ∧
      s2.world.progress.status = "completed" ∧
      s2.world.progress.completed = true ∧
      ∀ fuel, loopGo L env (fuel + 1) s = (s2, ret)) ∧
    runPass L env2 s = runPass L env s := by
  have hd1 : dispatchCalls L env
      (pre ++ (⟨i, "task_completed", .ok []⟩ : ToolCall) :: post)
      (toolPhase content (pre ++ (⟨i, "task_completed", .ok []⟩ : ToolCall) :: post)
        (msgCommon content (beginPass s))) =
      .finished
        (finishState env (succState ⟨i, "task_completed", .ok []⟩
          "Task marked as completed." (task_completed s1.world).2 s1))
        (finishOut (succState ⟨i, "task_completed", .ok []⟩
          "Task marked as completed." (task_completed s1.world).2 s1)) :=
    (dispatchCalls_append_proceed hpre ((⟨i, "task_completed", .ok []⟩ : ToolCall) :: post)).trans
      (dispatchCalls_task_completed L env i post s1)
  have hrun : runPass L env s =
      .finished
        (finishState env (succState ⟨i, "task_completed", .ok []⟩
          "Task marked as completed." (task_completed s1.world).2 s1))
        (finishOut (succState ⟨i, "task_completed", .ok []⟩
          "Task marked as completed." (task_completed s1.world).2 s1)) := by
    unfold runPass
    simp only [beginPass_iter, hor, isEmpty_append_cons, Bool.false_eq_true, if_false, hd1]
  have hd2 : dispatchCalls L env2
      (pre ++ (⟨i, "task_completed", .ok []⟩ : ToolCall) :: post)
      (toolPhase content (pre ++ (⟨i, "task_completed", .ok []⟩ : ToolCall) :: post)
        (msgCommon content (beginPass s))) =
      .finished
        (finishState env (succState ⟨i, "task_completed", .ok []⟩
          "Task marked as completed." (task_completed s1.world).2 s1))
        (finishOut (succState ⟨i, "task_completed", .ok []⟩
          "Task marked as completed." (task_completed s1.world).2 s1)) :=
    (dispatchCalls_env hlog _ _).trans hd1
  have hrun2 : runPass L env2 s =
      .finished
        (finishState env (succState ⟨i, "task_completed", .ok []⟩
          "Task marked as completed." (task_completed s1.world).2 s1))
        (finishOut (succState ⟨i, "task_completed", .ok []⟩
          "Task marked as completed." (task_completed s1.world).2 s1)) := by
    unfold runPass
    simp only [beginPass_iter, hfirst, hor, isEmpty_append_cons, Bool.false_eq_true,
      if_false, hd2]
  refine ⟨?_, ⟨_, _, hrun, rfl, rfl, ?_⟩, hrun2.trans hrun.symm⟩
  · intro st
    exact (dispatchCalls_task_completed L env i post st).trans
      (dispatchCalls_task_completed L env i [] st).symm
  · intro fuel
    unfold loopGo
    simp only [hrun]

/-- Claim C10: over any dispatched batch with distinct call ids, the
conversation messages added by the Dispatcher are exactly the tool-role
messages of the successful outcomes, in lockstep with the recorded tool
results, while failed outcomes contribute only error entries; consequently
a ToolCall that fails in any of the three modes — unregistered name,
non-parseable arguments, or a capability that raises during execution —
contributes no tool-role message for its id: any message in the final
conversation carrying that id was already there before the batch. -/
theorem failed_calls_leave_no_tool_message (L : Libs) (env : RunEnv)
    (calls : List ToolCall) (s : RunState)
    (hnd : (calls.map ToolCall.id).Nodup) :
    ∃ outs : List (ToolCall × World × Except ErrorEntry String),
      (resState (dispatchCalls L env calls s)).messages =
        s.messages ++ outs.filterMap (fun o =>
          match o.2.2 with
          | .ok r => some (toolMsg o.1 r)
          | .error _ => none) ∧
      (resState (dispatchCalls L env calls s)).cur.tool_results =
        s.cur.tool_results ++ outs.filterMap (fun o =>
          match o.2.2 with
          | .ok r => some ((⟨o.1.name, r⟩ : ToolResult))
          | .error _ => none) ∧
      (resState (dispatchCalls L env calls s)).cur.errors =
        s.cur.errors ++ outs.filterMap (fun o =>
          match o.2.2 with
          | .ok _ => none
          | .error ee => some ee) ∧
      (∀ o ∈ outs, o.1 ∈ calls ∧
        (∀ r, o.2.2 = .ok r → o.1.name ∈ available_functions ∧
          ∃ args w2, o.1.arguments = .ok args ∧
            callFunction L o.1.name args o.2.1 = .ok (r, w2)) ∧
        (∀ ee, o.2.2 = .error ee →
          (o.1.name ∉ available_functions ∧ ee = unavailErr o.1.name) ∨
          (∃ e, o.1.arguments = .error e ∧ ee = execErr L o.1.name e) ∨
          (∃ args e, o.1.arguments = .ok args ∧
            callFunction L o.1.name args o.2.1 = .error e ∧
            ee = execErr L o.1.name e))) ∧
      (∀ tc ∈ calls,
        (tc.name ∉ available_functions ∨ (∃ e, tc.arguments = .error e) ∨
          (∃ w ee, (tc, w, Except.error ee) ∈ outs)) →
        ∀ m ∈ (resState (dispatchCalls L env calls s)).messages,
          m.tool_call_id = some tc.id → m ∈ s.messages) := by
  rcases dispatchCalls_outcomes L env calls s with ⟨outs, h1, h2, h3, ⟨rest, hpre⟩, h5⟩
  refine ⟨outs, h1, h2, h3, h5, ?_⟩
  intro tc htc hfail m hm hid
  rw [h1] at hm
  rcases List.mem_append.mp hm with hin | hnew
  · exact hin
  · exfalso
    rcases List.mem_filterMap.mp hnew with ⟨o, ho, hmo⟩
    rcases hr : o.2.2 with ee | r
    · simp only [hr] at hmo
      cases hmo
    · simp only [hr, Option.some.injEq] at hmo
      subst hmo
      have hideq : o.1.id = tc.id := by simpa [toolMsg] using hid
      rcases h5 o ho with ⟨hmem, hok, _⟩
      have hpt : o.1 = tc := List.inj_on_of_nodup_map hnd hmem htc hideq
      rcases hok r hr with ⟨hreg, args, w2, hargs, hcall⟩
      rcases hfail with hf1 | ⟨e, hf2⟩ | ⟨w, ee, hfo⟩
      · exact hf1 (hpt ▸ hreg)
      · rw [hpt, hf2] at hargs
        cases hargs
      · have hnd2 : (outs.map (fun o => o.1.id)).Nodup := by
          rw [hpre, List.map_append, List.map_map] at hnd
          exact List.Nodup.of_append_left hnd
        have hoeq : (tc, w, Except.error ee) = o :=
          List.inj_on_of_nodup_map hnd2 hfo ho (by rw [hpt])
        rw [← hoeq] at hr
        cases hr

/-- Witness for C4 at a concrete unregistered name. -/
theorem unregistered_tool_nonfatal_witness :
    dispatchCalls wLibs wEnv [wBad] wState =
      dispatchCalls wLibs wEnv []
        { wState with cur := { wState.cur with errors := wState.cur.errors ++
            [⟨"tool_call_" ++ wBad.name,
              "Tool \x27" ++ wBad.name ++ "\x27 is not available.",
              some "No traceback available."⟩] } } :=
  unregistered_tool_nonfatal wLibs wEnv wBad [] wState (by decide)

/-- Witness for C5: a non-parseable payload and a capability that raises. -/
theorem dispatch_fault_nonfatal_witness :
    (dispatchCalls wLibs wEnv [wBadArgs] wState =
      dispatchCalls wLibs wEnv []
        { wState with cur := { wState.cur with errors := wState.cur.errors ++
            [⟨"tool_call_" ++ wBadArgs.name,
              "Error executing " ++ wBadArgs.name ++ ": " ++ "Expecting value: line 1 column 1",
              some (wLibs.format_exc "Expecting value: line 1 column 1")⟩] } }) ∧
    (dispatchCalls wLibs wEnv [wRaise] wState =
      dispatchCalls wLibs wEnv []
        { wState with cur := { wState.cur with errors := wState.cur.errors ++
            [⟨"tool_call_" ++ wRaise.name,
              "Error executing " ++ wRaise.name ++ ": " ++
                "OSError: cannot create directory badpath",
              some (wLibs.format_exc "OSError: cannot create directory badpath")⟩] } }) :=
  ⟨(dispatch_fault_nonfatal wLibs wEnv wBadArgs [] wState
      "Expecting value: line 1 column 1" [] (by decide)).1 rfl,
   (dispatch_fault_nonfatal wLibs wEnv wRaise [] wState
      "OSError: cannot create directory badpath" [("path", "badpath")] (by decide)).2
      rfl (by decide)⟩

/-- Witness for C1: with a concrete batch `[wMake, task_completed, wBad]`,
the pass result is independent of the round-2 gateway oracle. -/
theorem task_completed_terminates_run_witness :
    runPass wLibs wEnv2 wState = runPass wLibs wEnv wState :=
  (task_completed_terminates_run wLibs wEnv wEnv2 wState wS1 (some "hi") "call1"
    [wMake] [wBad] rfl rfl rfl (fun _ => rfl)).2.2

/-- Witness for C10 at a concrete batch exercising all three failure
modes: an unregistered name, a non-parseable payload, and a capability
that raises. -/
theorem failed_calls_leave_no_tool_message_witness :
    ∃ outs : List (ToolCall × World × Except ErrorEntry String),
      (resState (dispatchCalls wLibs wEnv [wBad, wBadArgs, wRaise] wState)).messages =
        wState.messages ++ outs.filterMap (fun o =>
          match o.2.2 with
          | .ok r => some (toolMsg o.1 r)
          | .error _ => none) ∧
      (resState (dispatchCalls wLibs wEnv [wBad, wBadArgs, wRaise] wState)).cur.tool_results =
        wState.cur.tool_results ++ outs.filterMap (fun o =>
          match o.2.2 with
          | .ok r => some ((⟨o.1.name, r⟩ : ToolResult))
          | .error _ => none) ∧
      (resState (dispatchCalls wLibs wEnv [wBad, wBadArgs, wRaise] wState)).cur.errors =
        wState.cur.errors ++ outs.filterMap (fun o =>
          match o.2.2 with
          | .ok _ => none
          | .error ee => some ee) ∧
      (∀ o ∈ outs, o.1 ∈ [wBad, wBadArgs, wRaise] ∧
        (∀ r, o.2.2 = .ok r → o.1.name ∈ available_functions ∧
          ∃ args w2, o.1.arguments = .ok args ∧
            callFunction wLibs o.1.name args o.2.1 = .ok (r, w2)) ∧
        (∀ ee, o.2.2 = .error ee →
          (o.1.name ∉ available_functions ∧ ee = unavailErr o.1.name) ∨
          (∃ e, o.1.arguments = .error e ∧ ee = execErr wLibs o.1.name e) ∨
          (∃ args e, o.1.arguments = .ok args ∧
            callFunction wLibs o.1.name args o.2.1 = .error e ∧
            ee = execErr wLibs o.1.name e))) ∧
      (∀ tc ∈ [wBad, wBadArgs, wRaise],
        (tc.name ∉ available_functions ∨ (∃ e, tc.arguments = .error e) ∨
          (∃ w ee, (tc, w, Except.error ee) ∈ outs)) →
        ∀ m ∈ (resState (dispatchCalls wLibs wEnv [wBad, wBadArgs, wRaise] wState)).messages,
          m.tool_call_id = some tc.id → m ∈ wState.messages) :=
  failed_calls_leave_no_tool_message wLibs wEnv [wBad, wBadArgs, wRaise] wState (by decide)

end DittoX
